import Mathlib

/-!
# Static site generators of com-seankhliao: page pipeline

A shallow embedding of the two generator programs of the repository:

* `src/sitegen/main.go` (the richer variant): `parsePage`, `processPage`,
  `processPages`, `atomFeed`;
* `src/main.go` (the simple variant): `parsePost`, `md2html`.

Go strings and byte slices are lists of bytes (`Nat` values below 256), so
that slicing, splitting and comparison are the byte-wise operations of Go.
Everything outside the two files (the file system, the YAML decoder, the
Markdown renderer, the template engine, URL printing and the URL normalizer)
is a field of a `World` record; the theorems quantify over it.
-/

namespace SiteGen

/-! ## Go strings -/

/-- A Go string or byte slice: its bytes in order. -/
abbrev GoString := List Nat

/-- UTF-8 bytes of one character. -/
def utf8 (c : Char) : List Nat :=
  let n := c.toNat
  if n < 128 then [n]
  else if n < 2048 then [192 + n / 64, 128 + n % 64]
  else if n < 65536 then [224 + n / 4096, 128 + n / 64 % 64, 128 + n % 64]
  else [240 + n / 262144, 128 + n / 4096 % 64, 128 + n / 64 % 64, 128 + n % 64]

/-- The Go string written as the literal `s`. -/
def str (s : String) : GoString := s.data.flatMap utf8

/-- Go's `a < b` on strings: byte-wise lexicographic order. -/
def strLt : GoString → GoString → Bool
  | [], [] => false
  | [], _ :: _ => true
  | _ :: _, [] => false
  | a :: as, b :: bs => if a < b then true else if b < a then false else strLt as bs

/-- `strings.HasPrefix` / `bytes.HasPrefix`. -/
def HasPrefix (s pre : GoString) : Bool := pre.isPrefixOf s

/-- `strings.HasSuffix`. -/
def HasSuffix (s suf : GoString) : Bool := suf.isSuffixOf s

/-- `strings.TrimSuffix`: `s` without the suffix `suf` when it ends in it, else `s`. -/
def TrimSuffix (s suf : GoString) : GoString :=
  if HasSuffix s suf then s.take (s.length - suf.length) else s

/-- `strings.TrimPrefix`. -/
def TrimPrefix (s pre : GoString) : GoString :=
  if HasPrefix s pre then s.drop pre.length else s

/-- The first occurrence of the non-empty separator `sep` in `s`: the bytes before
it and the bytes after it (`bytes.Index` and the two slices `genSplit` takes). -/
def cut (sep : GoString) : GoString → Option (GoString × GoString)
  | [] => none
  | c :: cs =>
    if sep.isPrefixOf (c :: cs) then some ([], (c :: cs).drop sep.length)
    else match cut sep cs with
      | none => none
      | some (a, b) => some (c :: a, b)

/-- `strings.SplitN` / `bytes.SplitN` for a non-empty separator and `n ≥ 0`:
at most `n` pieces, the last one the unsplit remainder. -/
def SplitN (s sep : GoString) : Nat → List GoString
  | 0 => []
  | 1 => [s]
  | n + 2 =>
    match cut sep s with
    | none => [s]
    | some (a, b) => a :: SplitN b sep (n + 1)

/-- `strings.Split` / `bytes.Split` for a non-empty separator: `SplitN` with
`n = Count(s, sep) + 1`, which never exceeds `len(s) + 1`. -/
def Split (s sep : GoString) : List GoString := SplitN s sep (s.length + 1)

/-- `strings.Join`. -/
def Join (elems : List GoString) (sep : GoString) : GoString := sep.intercalate elems

/-- The UTF-8 encodings of the characters `unicode.IsSpace` accepts: tab, LF, VT,
FF, CR, space, U+0085, U+00A0, U+1680, U+2000 to U+200A, U+2028, U+2029, U+202F,
U+205F and U+3000. -/
def spaces : List GoString :=
  [[9], [10], [11], [12], [13], [32], [194, 133], [194, 160], [225, 154, 128],
   [226, 128, 128], [226, 128, 129], [226, 128, 130], [226, 128, 131], [226, 128, 132],
   [226, 128, 133], [226, 128, 134], [226, 128, 135], [226, 128, 136], [226, 128, 137],
   [226, 128, 138], [226, 128, 168], [226, 128, 169], [226, 128, 175], [226, 129, 159],
   [227, 128, 128]]

/-- `bytes.TrimLeftFunc(s, unicode.IsSpace)`, dropping at most `n` characters. -/
def trimLeftSpace : Nat → GoString → GoString
  | 0, s => s
  | n + 1, s =>
    match spaces.find? (fun sp => sp.isPrefixOf s) with
    | some sp => trimLeftSpace n (s.drop sp.length)
    | none => s

/-- `bytes.TrimRightFunc(s, unicode.IsSpace)`, dropping at most `n` characters. -/
def trimRightSpace : Nat → GoString → GoString
  | 0, s => s
  | n + 1, s =>
    match spaces.find? (fun sp => sp.isSuffixOf s) with
    | some sp => trimRightSpace n (s.take (s.length - sp.length))
    | none => s

/-- `bytes.TrimSpace`: the input without its leading and trailing white space, as
Unicode defines it. -/
def TrimSpace (s : GoString) : GoString :=
  trimRightSpace s.length (trimLeftSpace s.length s)

/-! ## `path/filepath` on Unix -/

/-- One step of `filepath.Clean` over the path elements: `out` holds the elements
kept so far, `dotdot` how many leading `..` elements cannot be removed. -/
def cleanStep (rooted : Bool) (st : List GoString × Nat) (e : GoString) : List GoString × Nat :=
  if e = [] ∨ e = str "." then st
  else if e = str ".." then
    if st.2 < st.1.length then (st.1.dropLast, st.2)
    else if rooted then st
    else (st.1 ++ [e], st.1.length + 1)
  else (st.1 ++ [e], st.2)

/-- `filepath.Clean`: empty and `.` elements are dropped, an inner `..` removes the
element before it, a `..` at the start of a rooted path is dropped, and the
empty result is `.`. -/
def Clean (path : GoString) : GoString :=
  if path = [] then str "."
  else
    let rooted := HasPrefix path (str "/")
    let out := ((Split path (str "/")).foldl (cleanStep rooted) ([], 0)).1
    if rooted then str "/" ++ Join out (str "/")
    else if out = [] then str "." else Join out (str "/")

/-- `filepath.Join`: the elements from the first non-empty one on, joined with
`/` and cleaned; the empty string when every element is empty. -/
def filepathJoin : List GoString → GoString
  | [] => []
  | e :: es => if e = [] then filepathJoin es else Clean (Join (e :: es) (str "/"))

/-- `filepath.Ext`: the suffix of the last path element from its final dot on. -/
def Ext (path : GoString) : GoString :=
  let rev := path.reverse
  let tail := rev.takeWhile (fun c => c ≠ 47 ∧ c ≠ 46)
  match rev.drop tail.length with
  | 46 :: _ => 46 :: tail.reverse
  | _ => []

/-- Go's sorts (`sort.Slice`, `sort.Sort`, `sort.Strings`) by a `less` function.
They are not stable; the model is the insertion sort that keeps equal elements
in order, and the theorems use only that the result is a permutation of the
input in which no element is less than one before it. -/
def sortSlice {α : Type} (less : α → α → Bool) (xs : List α) : List α :=
  xs.insertionSort (fun a b => less b a = false)

/-! ## The richer variant: `src/sitegen/main.go` -/

/-- `BlogPost` (main.go:68). -/
structure BlogPost where
  Date : GoString := []
  Title : GoString := []
  URL : GoString := []
deriving DecidableEq, Repr

/-- `Page` (main.go:48). -/
structure Page where
  URLCanonical : GoString := []
  URLAMP : GoString := []
  AMP : Bool := false
  GAID : GoString := []
  Title : GoString := []
  Description : GoString := []
  Style : GoString := []
  Header : GoString := []
  Main : GoString := []
  Date : GoString := []
  Posts : List BlogPost := []
deriving DecidableEq, Repr

/-- The parts of a `url.URL` the program touches. -/
structure URL where
  Scheme : GoString := []
  Host : GoString := []
  Path : GoString := []
deriving DecidableEq, Repr

/-- `atom.Link` (its `Type` field is `Typ`: `Type` is reserved). -/
structure Link where
  Rel : GoString
  Href : GoString
  Typ : GoString
deriving DecidableEq, Repr

/-- `atom.Entry`, with the author left out (it is the same constant in every entry). -/
structure Entry where
  Title : GoString
  Link : List Link
  ID : GoString
  Published : GoString
  Updated : GoString
  Summary : GoString
deriving DecidableEq, Repr

/-- `atom.Feed`, with the constant author left out. -/
structure Feed where
  Title : GoString
  ID : GoString
  Link : List Link
  Updated : GoString
  Entry : List Entry
deriving DecidableEq, Repr

/-- The fields of `options` the two functions read (the type is declared outside
`main.go`). -/
structure options where
  src : GoString
  dst : GoString
  baseURL : GoString
  gaID : GoString

/-- A run-time panic of the Go program. -/
inductive Panic where
  | indexOutOfRange
  | sliceOutOfRange
deriving DecidableEq, Repr

/-- A non-nil `error` value, by the place that made it (message texts and the
`%w` wrapping are not modelled). -/
inductive GoError where
  | readFile
  | frontMatter
  | template
  | feed
  | sitemap
deriving DecidableEq, Repr

/-- What `main.go` calls but does not define. `normalizeURL` and `writeTemplate`
are functions of the package declared in another file; the rest is the Go
library and the machine. -/
structure World where
  /-- `ioutil.ReadFile`: the bytes of a file, `none` on error. -/
  readFile : GoString → Option GoString
  /-- `url.Parse` (its error is discarded by the callers). -/
  urlParse : GoString → URL
  /-- `(*url.URL).String`. -/
  urlString : URL → GoString
  /-- `normalizeURL` of the package. -/
  normalizeURL : GoString → GoString
  /-- `yaml.Unmarshal` into a `Page`: the record afterwards and whether it succeeded. -/
  yamlUnmarshal : GoString → Page → Page × Bool
  /-- `blackfriday.Run` with the HTML renderer of `CommonHTMLFlags`. -/
  markdown : GoString → GoString
  /-- `options.writeTemplate` of the package: `true` when it returns a nil error. -/
  writeTemplate : GoString → GoString → Page → Bool
  /-- `os.Create` of the feed file and the XML encoding into it: `true` on success. -/
  writeFeed : GoString → Feed → Bool
  /-- `ioutil.WriteFile`: `true` on success. -/
  writeFile : GoString → GoString → Bool
  /-- `time.Now()` as an Atom time string. -/
  now : GoString

/-- `fps` after main.go:164-165: the path split at `/`, its first element replaced
by `amp` and its last element without the `.md` suffix (the right-hand sides are
read before either assignment, and the last assignment wins on a one-element
path). -/
def pathSegments (fp : GoString) : List GoString :=
  let fps := Split fp (str "/")
  let last := TrimSuffix (fps.getLastD []) (str ".md")
  (fps.set 0 (str "amp")).set (fps.length - 1) last

/-- The source path `root/d1/.../dk/stem.md`. -/
def sourcePath (root : GoString) (dirs : List GoString) (stem : GoString) : GoString :=
  Join (root :: (dirs ++ [stem ++ str ".md"])) (str "/")

/-- The URL whose `String()` is normalized into `URLCanonical` (main.go:166-168). -/
def canonicalURL (o : options) (w : World) (fp : GoString) : URL :=
  { w.urlParse o.baseURL with Path := filepathJoin ((pathSegments fp).drop 1) }

/-- The URL whose `String()` is normalized into `URLAMP` (main.go:169-170). -/
def ampURL (o : options) (w : World) (fp : GoString) : URL :=
  { w.urlParse o.baseURL with Path := filepathJoin (pathSegments fp) }

/-- Front matter (main.go:176-183): the page after decoding, whether decoding
failed, and the body that is left. -/
def frontMatter (w : World) (p : Page) (b : GoString) : Except Panic (Page × Bool × GoString) :=
  if HasPrefix b (str "---") then
    let parts := SplitN b (str "---") 3
    match parts[1]? with
    | none => .error .indexOutOfRange
    | some fm =>
      let r := w.yamlUnmarshal fm p
      if r.2 then
        match parts[2]? with
        | none => .error .indexOutOfRange
        | some body => .ok (r.1, true, body)
      else .ok (r.1, false, b)
  else .ok (p, true, b)

/-- The date of main.go:195-197: `none` leaves `Page.Date` as it is. -/
def pageDate (fps : List GoString) : Except Panic (Option GoString) :=
  match fps[1]? with
  | none => .error .indexOutOfRange
  | some s1 =>
    if s1 = str "blog" then
      match fps[2]? with
      | none => .error .indexOutOfRange
      | some s2 =>
        if s2 ≠ str "index" then
          let name := fps.getLastD []
          if name.length < 10 then .error .sliceOutOfRange
          else .ok (some (name.take 10))
        else .ok none
    else .ok none

/-- The page of `parsePage` before the file is read (main.go:164-170). -/
def initialPage (o : options) (w : World) (fp : GoString) : Page :=
  { GAID := o.gaID
    URLCanonical := w.normalizeURL (w.urlString (canonicalURL o w fp))
    URLAMP := w.normalizeURL (w.urlString (ampURL o w fp)) }

/-- `options.parsePage` (main.go:163): the path segments, the page and the error.
On an error the segments are nil and the page is returned as far as it was
filled. -/
def parsePage (o : options) (w : World) (fp : GoString) :
    Except Panic (List GoString × Page × Option GoError) :=
  let fps := pathSegments fp
  let p := initialPage o w fp
  match w.readFile fp with
  | none => .ok ([], p, some .readFile)
  | some b =>
    match frontMatter w p b with
    | .error e => .error e
    | .ok (p, false, _) => .ok ([], p, some .frontMatter)
    | .ok (p, true, body) =>
      let p := { p with Main := w.markdown body }
      match pageDate fps with
      | .error e => .error e
      | .ok none => .ok (fps, p, none)
      | .ok (some d) => .ok (fps, { p with Date := d }, none)

/-- `options.processPage` (main.go:132): the two URLs for the sitemap, the blog
summary of a document of the blog section, and the error. -/
def processPage (o : options) (w : World) (fp : GoString) :
    Except Panic (List GoString × Option BlogPost × Option GoError) :=
  match parsePage o w fp with
  | .error e => .error e
  | .ok (_, _, some err) => .ok ([], none, some err)
  | .ok (fps, p, none) =>
    let htmlpath := filepathJoin (fps.drop 1) ++ str ".html"
    match fps[1]? with
    | none => .error .indexOutOfRange
    | some s1 =>
      if s1 = str "blog" then
        if w.writeTemplate htmlpath (str "layout-blogpost") p then
          .ok ([p.URLCanonical, p.URLAMP],
            some { Title := p.Title, Date := p.Date,
                   URL := TrimSuffix (fps.getLastD []) (str ".html") }, none)
        else .ok ([], none, some .template)
      else
        if w.writeTemplate htmlpath (str "layout-main") p then
          .ok ([p.URLCanonical, p.URLAMP], none, none)
        else .ok ([], none, some .template)

/-- One Atom entry (the body of the loop of main.go:226-254). -/
def atomEntry (o : options) (w : World) (bp : BlogPost) : Entry :=
  let u := w.urlParse o.baseURL
  let u := { u with Path := filepathJoin [str "blog", bp.URL] }
  let htmlpath := w.normalizeURL (w.urlString u)
  let u := { u with Path := filepathJoin [str "amp", u.Path] }
  let amppath := w.normalizeURL (w.urlString u)
  { Title := bp.Title
    Link := [{ Rel := str "alternate", Href := htmlpath, Typ := str "text/html" },
             { Rel := str "amphtml", Href := amppath, Typ := str "text/html" }]
    ID := htmlpath
    Published := bp.Date ++ str "T00:00:00Z"
    Updated := bp.Date ++ str "T00:00:00Z"
    Summary := bp.Title }

/-- The feed value `atomFeed` encodes (main.go:208-254). -/
def feedOf (o : options) (w : World) (bps : List BlogPost) : Feed :=
  { Title := str "seankhliao's stream of consciousness"
    ID := str "tag:seankhliao.com,2019:seankhliao.com"
    Link := [{ Rel := str "self", Href := str "https://seankhliao.com/feed.atom",
               Typ := str "application/atom+xml" },
             { Rel := str "alternate", Href := str "https://seankhliao.com/blog",
               Typ := str "text/html" }]
    Updated := w.now
    Entry := bps.map (atomEntry o w) }

/-- The URL of the feed that `atomFeed` returns (main.go:266-267). -/
def feedURL (o : options) (w : World) : GoString :=
  w.urlString { w.urlParse o.baseURL with Path := str "feed.atom" }

/-- `options.atomFeed` (main.go:201): the feed written and the feed's own URL. -/
def atomFeed (o : options) (w : World) (bps : List BlogPost) : Except GoError (Feed × GoString) :=
  let fd := feedOf o w bps
  if w.writeFeed (filepathJoin [o.dst, str "feed.atom"]) fd then .ok (fd, feedURL o w)
  else .error .feed

/-- The variables the walk of `processPages` fills (main.go:76-78). -/
structure WalkState where
  blogindex : Page := {}
  sitemapPages : List GoString := []
  blogPosts : List BlogPost := []
deriving DecidableEq, Repr

/-- The walk function of `processPages` on one regular file (main.go:83-99). -/
def walkFile (o : options) (w : World) (st : WalkState) (fp : GoString) :
    Except Panic (Except GoError WalkState) :=
  if Ext fp = str ".md" then
    if HasSuffix fp (str "blog/index.md") then
      match parsePage o w fp with
      | .error e => .error e
      | .ok (_, p, _) => .ok (.ok { st with blogindex := p })
    else
      match processPage o w fp with
      | .error e => .error e
      | .ok (_, _, some err) => .ok (.error err)
      | .ok (urls, bp, none) =>
        .ok (.ok { st with
          sitemapPages := st.sitemapPages ++ urls
          blogPosts := match bp with
            | some b => st.blogPosts ++ [b]
            | none => st.blogPosts })
  else .ok (.ok st)

/-- `filepath.Walk` over the regular files of the tree, in walk order; it stops
at the first error. -/
def walk (o : options) (w : World) : WalkState → List GoString →
    Except Panic (Except GoError WalkState)
  | st, [] => .ok (.ok st)
  | st, fp :: rest =>
    match walkFile o w st fp with
    | .error e => .error e
    | .ok (.error err) => .ok (.error err)
    | .ok (.ok st) => walk o w st rest

/-- What a successful `processPages` has produced. -/
structure Site where
  /-- the page rendered through `layout-blogindex`. -/
  blogindex : Page
  /-- the summaries passed to `atomFeed`. -/
  blogPosts : List BlogPost
  feed : Feed
  /-- the sorted URL list of main.go:120. -/
  sitemap : List GoString
  /-- the bytes written to `sitemap.txt`. -/
  sitemapText : GoString
deriving DecidableEq, Repr

/-- `options.processPages` (main.go:74) over the regular files of the source tree. -/
def processPages (o : options) (w : World) (files : List GoString) :
    Except Panic (Except GoError Site) :=
  match walk o w {} files with
  | .error e => .error e
  | .ok (.error err) => .ok (.error err)
  | .ok (.ok st) =>
    let blogPosts := sortSlice (fun a b => strLt b.URL a.URL) st.blogPosts
    let blogindex := { st.blogindex with Posts := blogPosts }
    if w.writeTemplate (str "/blog/index.html") (str "layout-blogindex") blogindex then
      match atomFeed o w blogPosts with
      | .error err => .ok (.error err)
      | .ok (fd, u) =>
        let sitemapPages := sortSlice strLt (st.sitemapPages ++ [u])
        let text := Join sitemapPages (str "\n")
        if w.writeFile (filepathJoin [o.dst, str "sitemap.txt"]) text then
          .ok (.ok { blogindex := blogindex, blogPosts := blogPosts, feed := fd,
                     sitemap := sitemapPages, sitemapText := text })
        else .ok (.error .sitemap)
    else .ok (.error .template)

/-! ## The simple variant: `src/main.go` -/

/-- `Post` (main.go:242). -/
structure Post where
  Title : GoString := []
  URL : GoString := []
  Desc : GoString := []
  Date : GoString := []
  Content : GoString := []
deriving DecidableEq, Repr

/-- What a call leaves behind besides its result: the lines it logs, by the
`log.Printf` that wrote them, and the pages it renders. -/
inductive Event where
  /-- main.go:157 -/
  | logReadFile (fp : GoString)
  /-- main.go:165 -/
  | logExpectedDelimiter (fp : GoString)
  /-- main.go:171 -/
  | logExpectedEquals (fp : GoString) (ln : Nat)
  /-- main.go:183 -/
  | logUnknownKey (fp : GoString) (ln : Nat)
  /-- main.go:192, 139 -/
  | logNewFile (nfn : GoString)
  /-- main.go:199, 146 -/
  | logTemplate (tmpl : GoString)
  /-- a template executed into the file `nfn` -/
  | rendered (nfn : GoString) (tmpl : GoString)
deriving DecidableEq, Repr

/-- The data `md2html` hands to the index template (main.go:130). -/
structure Index where
  Posts : List Post
  Title : GoString
  URL : GoString
deriving DecidableEq, Repr

/-- The package variables `Src` and `Dst` and what the simple variant calls
outside its file. -/
structure Env where
  Src : GoString
  Dst : GoString
  /-- `ioutil.ReadFile`: the bytes of a file, `none` on error. -/
  readFile : GoString → Option GoString
  /-- `blackfriday.Run` with its default options. -/
  markdown : GoString → GoString
  /-- `os.MkdirAll` and `os.Create` of `newFile`: `true` when the file is created. -/
  create : GoString → Bool
  /-- `ExecuteTemplate` of a post template: `true` on a nil error. -/
  executePost : GoString → Post → Bool
  /-- `ExecuteTemplate` of an index template: `true` on a nil error. -/
  executeIndex : GoString → Index → Bool

/-- The package variable `MdExt` (main.go:23). -/
def MdExt : GoString := str ".md"

/-- `filepath.Base`: the last element of the path, trailing slashes removed. -/
def Base (path : GoString) : GoString :=
  if path = [] then str "."
  else
    let p := (path.reverse.dropWhile (fun c => c = 47)).reverse
    if p = [] then str "/" else (p.reverse.takeWhile (fun c => c ≠ 47)).reverse

/-- `Processor.src2dst` (main.go:225). -/
def src2dst (e : Env) (f : GoString) : GoString :=
  filepathJoin [e.Dst, TrimPrefix f e.Src]

/-- The `switch` of main.go:175-184 on the key `k` and the value `x` of header
line `ln`: the post with the field set, and the log line for an unknown key. -/
def headerField (fp : GoString) (pt : Post) (ln : Nat) (k x : GoString) : Post × List Event :=
  let v := TrimSpace x
  let key := TrimSpace k
  if key = str "title" then ({ pt with Title := v }, [])
  else if key = str "date" then ({ pt with Date := v }, [])
  else if key = str "desc" ∨ key = str "description" then ({ pt with Desc := v }, [])
  else (pt, [.logUnknownKey fp ln])

/-- The header loop of `parsePost` (main.go:168-185) from line number `ln` on:
the post, the log, and `false` when a line without `=` made the function
return. -/
def parseHeader (fp : GoString) (pt : Post) : Nat → List GoString → Post × List Event × Bool
  | _, [] => (pt, [], true)
  | ln, line :: rest =>
    match SplitN line (str "=") 2 with
    | [k, x] =>
      let step := headerField fp pt ln k x
      let r := parseHeader fp step.1 (ln + 1) rest
      (r.1, step.2 ++ r.2.1, r.2.2)
    | _ => (pt, [.logExpectedEquals fp ln], false)

/-- `Processor.parsePost` (main.go:152): the post it returns and what it logs
and renders. -/
def parsePost (e : Env) (tmpl fp : GoString) : Post × List Event :=
  match e.readFile fp with
  | none => ({}, [.logReadFile fp])
  | some b =>
    let pt : Post := { URL := TrimPrefix (TrimSuffix fp MdExt) e.Src }
    match SplitN b (str "\n---\n") 2 with
    | [hd, body] =>
      let h := parseHeader fp pt 0 (Split (TrimSpace hd) (str "\n"))
      if h.2.2 then
        let pt := { h.1 with Content := e.markdown body }
        let nfn := TrimSuffix (src2dst e fp) MdExt ++ str ".html"
        if e.create nfn then
          if e.executePost tmpl pt then (pt, h.2.1 ++ [.rendered nfn tmpl])
          else (pt, h.2.1 ++ [.logTemplate tmpl])
        else (pt, h.2.1 ++ [.logNewFile nfn])
      else (h.1, h.2.1)
    | _ => (pt, [.logExpectedDelimiter fp])

/-- `Processor.md2html` (main.go:118): the data of the directory index and what
the call logs and renders. -/
def md2html (e : Env) (dir : GoString) (fps : List GoString) : Index × List Event :=
  let bd := Base dir
  let posttmpl := bd ++ str "-post"
  let idxtmpl := bd ++ str "-index"
  let results := fps.map (parsePost e posttmpl)
  let posts := sortSlice (fun a b => strLt b.Date a.Date) (results.map Prod.fst)
  let idx : Index := { Posts := posts, Title := bd, URL := TrimPrefix dir e.Src }
  let nfn := filepathJoin [src2dst e dir, str "index.html"]
  let log := (results.map Prod.snd).flatten
  if e.create nfn then
    if e.executeIndex idxtmpl idx then (idx, log ++ [.rendered nfn idxtmpl])
    else (idx, log ++ [.logTemplate idxtmpl])
  else (idx, log ++ [.logNewFile nfn])

/-! ## A concrete world

The instances below stand for the library on the plain inputs used in the
examples: ASCII paths, flat `key: value` front matter, one-paragraph bodies. -/

/-- `url.Parse` on `scheme://host` or `scheme://host/path`. -/
def parseURL (s : GoString) : URL :=
  match cut (str "://") s with
  | none => { Path := s }
  | some (scheme, rest) =>
    match cut (str "/") rest with
    | none => { Scheme := scheme, Host := rest }
    | some (host, path) => { Scheme := scheme, Host := host, Path := str "/" ++ path }

/-- `(*url.URL).String` for a URL with a scheme and a host whose path needs no
escaping: a slash is put before a relative path. -/
def printURL (u : URL) : GoString :=
  u.Scheme ++ str "://" ++ u.Host ++
    (if u.Path ≠ [] ∧ ¬ HasPrefix u.Path (str "/") then str "/" else []) ++ u.Path

/-- Modelled from the spec: `normalizeURL` is not in `main.go`. Section 4.1: "any
path ending in `index` becomes its parent directory with trailing slash"; every
other URL is left as it is. -/
def specNormalizeURL (u : GoString) : GoString :=
  if HasSuffix u (str "/index") then TrimSuffix u (str "index") else u

/-- The `\n` escapes of a double-quoted scalar decoded. -/
def unescape : GoString → GoString
  | 92 :: 110 :: rest => 10 :: unescape rest
  | c :: rest => c :: unescape rest
  | [] => []

/-- A YAML scalar: a double-quoted one without its quotes and with its `\n`
escapes decoded, a plain one as it is written. -/
def scalar (v : GoString) : GoString :=
  if 2 ≤ v.length ∧ v.head? = some 34 ∧ v.getLast? = some 34 then
    unescape (v.drop 1).dropLast
  else v

/-- One `key: value` line of flat front matter decoded into the page; keys are
matched to field names without regard to case, as `encoding/json` does, and
written here in lower case. -/
def yamlLine (p : Page) (line : GoString) : Page × Bool :=
  if TrimSpace line = [] then (p, true)
  else match cut (str ":") line with
    | none => (p, false)
    | some (k, x) =>
      let v := scalar (TrimSpace x)
      let key := TrimSpace k
      if key = str "title" then ({ p with Title := v }, true)
      else if key = str "description" then ({ p with Description := v }, true)
      else if key = str "style" then ({ p with Style := v }, true)
      else if key = str "header" then ({ p with Header := v }, true)
      else if key = str "date" then ({ p with Date := v }, true)
      else if key = str "gaid" then ({ p with GAID := v }, true)
      else if key = str "urlcanonical" then ({ p with URLCanonical := v }, true)
      else if key = str "urlamp" then ({ p with URLAMP := v }, true)
      else (p, true)

/-- `yaml.Unmarshal` on front matter that is a flat mapping of plain scalars, one
`key: value` a line. -/
def flatYAML (fm : GoString) (p : Page) : Page × Bool :=
  (Split fm (str "\n")).foldl
    (fun acc line => if acc.2 then yamlLine acc.1 line else acc) (p, true)

/-- The Markdown renderer on a body that is one paragraph of plain text. -/
def paragraph (b : GoString) : GoString :=
  if TrimSpace b = [] then [] else str "<p>" ++ TrimSpace b ++ str "</p>\n"

/-- A file system as a list of paths with their contents. -/
def lookupFile (files : List (GoString × GoString)) (fp : GoString) : Option GoString :=
  (files.find? (fun f => f.1 = fp)).map Prod.snd

/-- The world of the richer variant over the given files, in which every write
succeeds. -/
def worldOf (files : List (GoString × GoString)) : World :=
  { readFile := lookupFile files
    urlParse := parseURL
    urlString := printURL
    normalizeURL := specNormalizeURL
    yamlUnmarshal := flatYAML
    markdown := paragraph
    writeTemplate := fun _ _ _ => true
    writeFeed := fun _ _ => true
    writeFile := fun _ _ => true
    now := str "2020-01-01T00:00:00Z" }

/-- The options of the examples. -/
def siteOptions : options :=
  { src := str "root", dst := str "dst", baseURL := str "https://seankhliao.com",
    gaID := str "UA-1" }

/-- The environment of the simple variant over the given files, in which every
write succeeds. -/
def envOf (files : List (GoString × GoString)) : Env :=
  { Src := str "src"
    Dst := str "dst"
    readFile := lookupFile files
    markdown := paragraph
    create := fun _ => true
    executePost := fun _ _ => true
    executeIndex := fun _ _ => true }

/-! ## Predicates of the statements and example inputs -/

/-- A path element that is a file or directory name: not empty, not `.` or `..`,
and without a slash. -/
def isName (e : GoString) : Prop := e ≠ [] ∧ e ≠ str "." ∧ e ≠ str ".." ∧ 47 ∉ e

instance (e : GoString) : Decidable (isName e) := by
  unfold isName
  infer_instance

/-- The blog post of the examples: its front matter supplies a title and a date
other than the one in the file name. -/
def helloPost : GoString × GoString :=
  (str "root/blog/2023-05-01-hello.md", str "---\ntitle: Hello\ndate: 2019-12-31\n---\nHi")

/-- The order C1 asks of two adjacent summaries `a`, `b`: `a.Date > b.Date`, or
the dates are equal and `a.URL ≥ b.URL`. -/
def newestFirst (a b : BlogPost) : Prop :=
  strLt b.Date a.Date = true ∨ (a.Date = b.Date ∧ strLt a.URL b.URL = false)

instance (a b : BlogPost) : Decidable (newestFirst a b) := by
  unfold newestFirst
  infer_instance

/-- A blog document whose summary takes its date from its URL: it does not lie
under `blog/index`, and its URL, the file name without `.md` and without a final
`.html`, has at least ten bytes. -/
def datedByName (fp : GoString) : Prop :=
  (pathSegments fp)[2]? ≠ some (str "index") ∧
    10 ≤ (TrimSuffix ((pathSegments fp).getLastD []) (str ".html")).length

instance (fp : GoString) : Decidable (datedByName fp) := by
  unfold datedByName
  infer_instance

/-- Two blog posts whose names end in `.html` before `.md`. -/
def htmlNamedPosts : List (GoString × GoString) :=
  [(str "root/blog/notes-2.html.md", str "two"), (str "root/blog/notes.html.md", str "one")]

/-- Two blog posts, the newer one in the directory `blog/index`. -/
def indexDirPosts : List (GoString × GoString) :=
  [(str "root/blog/2020-01-01-a.md", str "one"), (str "root/blog/index/2021-01-01-b.md", str "two")]

/-- A blog section: two dated posts, one of them named `.html.md`, a static HTML
file and the blog index. -/
def datedPosts : List (GoString × GoString) :=
  [(str "root/blog/2023-05-01-hello.md", str "---\ntitle: Hello\n---\nHi"),
   (str "root/blog/2023-05-02-again.html.md", str "---\ntitle: Again\n---\nHi"),
   (str "root/blog/embed.html", str "<p>static</p>"),
   (str "root/blog/index.md", str "---\ntitle: Blog\n---\n")]

/-- A file the walk hands to `processPage`: a Markdown file other than the blog
index (main.go:83-88). -/
def isPage (fp : GoString) : Bool :=
  Ext fp = str ".md" && !HasSuffix fp (str "blog/index.md")

/-- The canonical and the AMP URL of the page `parsePage` returns for a document. -/
def documentURLs (o : options) (w : World) (fp : GoString) : List GoString :=
  match parsePage o w fp with
  | .ok (_, p, none) => [p.URLCanonical, p.URLAMP]
  | _ => []

/-- The lines of a text file: its pieces between newlines. -/
def lines (text : GoString) : List GoString := Split text (str "\n")

/-- A page whose front matter sets a canonical URL with a newline in it. -/
def newlinePage : GoString × GoString :=
  (str "root/a.md", str "---\nurlcanonical: \"z\\na\"\n---\nHi")

/-- The documents `root/a.md` and `root/amp/a.md`. -/
def ampNamedPages : List (GoString × GoString) :=
  [(str "root/a.md", str "one"), (str "root/amp/a.md", str "two")]

/-- A blog post whose front matter sets the canonical URL. -/
def overridingPost : GoString × GoString :=
  (str "root/blog/2023-05-03-moved.md", str "---\nurlcanonical: https://example.com/x\n---\nHi")

/-- A blog post in a directory below the blog section. -/
def nestedPost : GoString × GoString :=
  (str "root/blog/2020/2020-01-01-post.md", str "Hi")

/-- A directory of the simple variant: a post with a header, one whose header
line has no `=`, and one without the terminator. -/
def simplePosts : List (GoString × GoString) :=
  [(str "src/blog/a.md", str "title = A\ndate = 2020-01-02\n---\nhello"),
   (str "src/blog/b.md", str "title\n---\nbody"),
   (str "src/blog/d.md", str "no header")]

/-! ## Lemmas on Go strings -/

theorem str_slash : str "/" = [47] := rfl

theorem str_dot : str "." = [46] := rfl

theorem str_dotdot : str ".." = [46, 46] := rfl

theorem str_md : str ".md" = [46, 109, 100] := rfl

theorem str_amp : str "amp" = [97, 109, 112] := rfl

theorem strLt_irrefl : ∀ a : GoString, strLt a a = false
  | [] => rfl
  | x :: xs => by simp [strLt, strLt_irrefl xs]

theorem strLt_asymm : ∀ a b : GoString, strLt a b = true → strLt b a = false
  | [], [] => by simp [strLt]
  | [], _ :: _ => by simp [strLt]
  | _ :: _, [] => by simp [strLt]
  | x :: xs, y :: ys => by
    have ih := strLt_asymm xs ys
    simp only [strLt]
    split_ifs <;> first | omega | simp | exact ih

theorem strLt_antisymm : ∀ a b : GoString, strLt a b = false → strLt b a = false → a = b
  | [], [] => by simp
  | [], _ :: _ => by simp [strLt]
  | _ :: _, [] => by simp [strLt]
  | x :: xs, y :: ys => by
    have ih := strLt_antisymm xs ys
    simp only [strLt]
    intro ha hb
    by_cases h1 : x < y
    · simp [h1] at ha
    · by_cases h2 : y < x
      · simp [h2] at hb
      · simp only [h1, h2, if_false] at ha hb
        have hxy : x = y := by omega
        rw [hxy, ih ha hb]

theorem strLt_ge_trans : ∀ a b c : GoString,
    strLt a b = false → strLt b c = false → strLt a c = false
  | [], [], _ => by simp
  | [], _ :: _, _ => by simp [strLt]
  | _ :: _, [], [] => by simp [strLt]
  | _ :: _, [], _ :: _ => by simp [strLt]
  | _ :: _, _ :: _, [] => by simp [strLt]
  | x :: xs, y :: ys, z :: zs => by
    have ih := strLt_ge_trans xs ys zs
    simp only [strLt]
    split_ifs <;> first | omega | simp | exact ih

theorem strLt_take : ∀ (n : Nat) (a b : GoString),
    strLt a b = false → strLt (a.take n) (b.take n) = false
  | 0, _, _ => by simp [strLt]
  | _ + 1, [], [] => by simp [strLt]
  | _ + 1, [], _ :: _ => by simp [strLt]
  | _ + 1, _ :: _, [] => by simp [strLt]
  | n + 1, x :: xs, y :: ys => by
    have ih := strLt_take n xs ys
    simp only [strLt, List.take_succ_cons]
    split_ifs <;> first | omega | simp | exact ih

theorem hasSuffix_append (s t : GoString) : HasSuffix (s ++ t) t = true := by
  simp [HasSuffix]

theorem trimSuffix_append (s t : GoString) : TrimSuffix (s ++ t) t = s := by
  simp [TrimSuffix, hasSuffix_append]

theorem trimSuffix_of_not (s t : GoString) (h : HasSuffix s t = false) : TrimSuffix s t = s := by
  simp [TrimSuffix, h]

theorem join_cons_cons (s t : GoString) (r : List GoString) (sep : GoString) :
    Join (s :: t :: r) sep = s ++ sep ++ Join (t :: r) sep := by
  simp [Join, List.intercalate, List.intersperse]

theorem join_singleton (s sep : GoString) : Join [s] sep = s := by
  simp [Join, List.intercalate, List.intersperse]

theorem cut_none_of_not_mem (c : Nat) : ∀ s : GoString, c ∉ s → cut [c] s = none
  | [], _ => rfl
  | x :: xs, h => by
    have hx : c ≠ x := fun e => h (by simp [e])
    have ih := cut_none_of_not_mem c xs (fun m => h (List.mem_cons_of_mem _ m))
    simp [cut, List.isPrefixOf, hx, ih]

theorem cut_append (c : Nat) : ∀ (s t : GoString), c ∉ s → cut [c] (s ++ c :: t) = some (s, t)
  | [], t, _ => by simp [cut, List.isPrefixOf]
  | x :: xs, t, h => by
    have hx : c ≠ x := fun e => h (by simp [e])
    have ih := cut_append c xs t (fun m => h (List.mem_cons_of_mem _ m))
    simp [cut, List.isPrefixOf, hx, ih]

theorem splitN_join (c : Nat) : ∀ (segs : List GoString), segs ≠ [] →
    (∀ s ∈ segs, c ∉ s) → ∀ n, segs.length ≤ n → SplitN (Join segs [c]) [c] n = segs
  | [], h, _, _, _ => absurd rfl h
  | [s], _, hs, n, hn => by
    have h0 : c ∉ s := hs s (by simp)
    rw [join_singleton]
    match n, hn with
    | 1, _ => rfl
    | n + 2, _ => simp [SplitN, cut_none_of_not_mem c s h0]
  | s :: t :: r, _, hs, n, hn => by
    have h0 : c ∉ s := hs s (by simp)
    have ih := splitN_join c (t :: r) (by simp) (fun x hx => hs x (List.mem_cons_of_mem _ hx))
    match n, hn with
    | n + 2, hn =>
      rw [join_cons_cons]
      have : s ++ [c] ++ Join (t :: r) [c] = s ++ c :: Join (t :: r) [c] := by simp
      rw [this]
      simp only [SplitN, cut_append c s _ h0]
      rw [ih (n + 1) (by simp at hn ⊢; omega)]

theorem length_join_ge : ∀ (segs : List GoString) (sep : GoString), sep ≠ [] →
    segs.length ≤ (Join segs sep).length + 1
  | [], _, _ => by simp
  | [s], _, _ => by simp
  | s :: t :: r, sep, h => by
    have ih := length_join_ge (t :: r) sep h
    have hl : 0 < sep.length := List.length_pos.mpr h
    rw [join_cons_cons]
    simp only [List.length_append, List.length_cons] at ih ⊢
    omega

theorem split_join (c : Nat) (segs : List GoString) (hne : segs ≠ [])
    (hs : ∀ s ∈ segs, c ∉ s) : Split (Join segs [c]) [c] = segs :=
  splitN_join c segs hne hs _ (length_join_ge segs [c] (by simp))

/-! ## Lemmas on paths -/

theorem cleanStep_name (rooted : Bool) (st : List GoString × Nat) (e : GoString)
    (h : isName e) : cleanStep rooted st e = (st.1 ++ [e], st.2) := by
  obtain ⟨h1, h2, h3, _⟩ := h
  simp [cleanStep, h1, h2, h3]

theorem foldl_cleanStep_names (rooted : Bool) : ∀ (segs out : List GoString) (d : Nat),
    (∀ e ∈ segs, isName e) → segs.foldl (cleanStep rooted) (out, d) = (out ++ segs, d)
  | [], out, d, _ => by simp
  | e :: es, out, d, h => by
    have he : isName e := h e (by simp)
    have ih := foldl_cleanStep_names rooted es (out ++ [e]) d
      (fun x hx => h x (List.mem_cons_of_mem _ hx))
    simp [List.foldl_cons, cleanStep_name rooted (out, d) e he, ih]

theorem join_cons_eq (s : GoString) (r : List GoString) (sep : GoString) :
    ∃ t, Join (s :: r) sep = s ++ t := by
  cases r with
  | nil => exact ⟨[], by simp [join_singleton]⟩
  | cons t r => exact ⟨sep ++ Join (t :: r) sep, by simp [join_cons_cons]⟩

theorem clean_join_names (segs : List GoString) (hne : segs ≠ [])
    (h : ∀ e ∈ segs, isName e) : Clean (Join segs (str "/")) = Join segs (str "/") := by
  obtain ⟨e, es, rfl⟩ := List.exists_cons_of_ne_nil hne
  obtain ⟨h1, _, _, h4⟩ := h e (by simp)
  obtain ⟨x, xs, rfl⟩ := List.exists_cons_of_ne_nil h1
  have hx : x ≠ 47 := fun e' => h4 (by simp [e'])
  obtain ⟨t, ht⟩ := join_cons_eq (x :: xs) es (str "/")
  have hsplit : Split (Join ((x :: xs) :: es) (str "/")) (str "/") = (x :: xs) :: es := by
    rw [str_slash]
    exact split_join 47 _ (by simp) (fun s hs => (h s hs).2.2.2)
  have hroot : HasPrefix (Join ((x :: xs) :: es) (str "/")) (str "/") = false := by
    rw [ht, str_slash]
    simp [HasPrefix, List.isPrefixOf, Ne.symm hx]
  have hnil : Join ((x :: xs) :: es) (str "/") ≠ [] := by
    rw [ht]
    simp
  unfold Clean
  simp only [hnil, if_false, hroot, hsplit]
  rw [foldl_cleanStep_names false _ [] 0 h]
  simp

theorem filepathJoin_names (segs : List GoString) (hne : segs ≠ [])
    (h : ∀ e ∈ segs, isName e) : filepathJoin segs = Join segs (str "/") := by
  obtain ⟨e, es, rfl⟩ := List.exists_cons_of_ne_nil hne
  have h1 : e ≠ [] := (h e (by simp)).1
  simp only [filepathJoin, h1, if_false]
  exact clean_join_names _ (by simp) h

theorem getLastD_snoc (l : List GoString) (x d : GoString) : (l ++ [x]).getLastD d = x :=
  List.getLastD_concat d x l

theorem pathSegments_path (root : GoString) (dirs : List GoString) (stem : GoString)
    (hroot : 47 ∉ root) (hdirs : ∀ d ∈ dirs, 47 ∉ d) (hstem : 47 ∉ stem) :
    pathSegments (sourcePath root dirs stem) = str "amp" :: (dirs ++ [stem]) := by
  unfold sourcePath
  have hmd : 47 ∉ stem ++ str ".md" := by
    rw [str_md]
    simp [hstem]
  have hsplit : Split (Join (root :: (dirs ++ [stem ++ str ".md"])) (str "/")) (str "/")
      = root :: (dirs ++ [stem ++ str ".md"]) := by
    rw [str_slash]
    refine split_join 47 _ (by simp) ?_
    intro s hs
    simp only [List.mem_cons, List.mem_append, List.mem_singleton, List.not_mem_nil,
      or_false] at hs
    rcases hs with rfl | hs | rfl
    · exact hroot
    · exact hdirs s hs
    · exact hmd
  have hlast : (root :: (dirs ++ [stem ++ str ".md"])).getLastD [] = stem ++ str ".md" := by
    rw [← List.cons_append]
    exact getLastD_snoc _ _ _
  unfold pathSegments
  simp only [hsplit, hlast, trimSuffix_append]
  simp [List.set_append]

theorem trimSpace_vectors :
    TrimSpace (str " \t A b \r\n") = str "A b" ∧
    TrimSpace (str "\u00a0A\u0085\u2003") = str "A" ∧
    TrimSpace (str " \n ") = [] ∧
    TrimSpace [160, 65, 160] = [160, 65, 160] := by
  decide

theorem clean_vectors :
    Clean (str "abc/def/../ghi/../jkl") = str "abc/jkl" ∧
    Clean (str "abc/./../def") = str "def" ∧
    Clean (str "../../abc") = str "../../abc" ∧
    Clean (str "abc//def//ghi") = str "abc/def/ghi" ∧
    Clean (str "/../abc") = str "/abc" ∧
    Clean (str "abc/def/../../..") = str ".." ∧
    Clean (str "abc/") = str "abc" ∧
    Clean (str "/") = str "/" ∧
    Clean (str "abc/../../././../def") = str "../../def" ∧
    filepathJoin [str "a", str ""] = str "a" ∧
    filepathJoin [str "", str ""] = str "" ∧
    filepathJoin [str "", str "a", str "..", str "b"] = str "b" := by
  decide

/-! ## Lemmas on `parsePage` -/

theorem str_dashes : str "---" = [45, 45, 45] := rfl

theorem str_blog : str "blog" = [98, 108, 111, 103] := rfl

theorem str_index : str "index" = [105, 110, 100, 101, 120] := rfl

/-- The result of `parsePage` once the file is read and its front matter, if
any, is decoded. -/
theorem parsePage_of_frontMatter (o : options) (w : World) (fp b body : GoString) (p1 : Page)
    (hread : w.readFile fp = some b)
    (hfm : frontMatter w (initialPage o w fp) b = .ok (p1, true, body)) :
    parsePage o w fp =
      match pageDate (pathSegments fp) with
      | .error e => .error e
      | .ok none => .ok (pathSegments fp, { p1 with Main := w.markdown body }, none)
      | .ok (some d) =>
        .ok (pathSegments fp, { p1 with Main := w.markdown body, Date := d }, none) := by
  simp only [parsePage, hread, hfm]

/-- Without the opening `---` the whole input is the body and the page is untouched. -/
theorem frontMatter_plain (w : World) (p : Page) (b : GoString)
    (h : HasPrefix b (str "---") = false) : frontMatter w p b = .ok (p, true, b) := by
  simp [frontMatter, h]

/-- Front matter closed by a second `---`: the bytes between the delimiters are
decoded and the bytes after the second one are the body. -/
theorem frontMatter_closed (w : World) (p p1 : Page) (rest fm body : GoString)
    (hcut : cut (str "---") rest = some (fm, body))
    (hyaml : w.yamlUnmarshal fm p = (p1, true)) :
    frontMatter w p (str "---" ++ rest) = .ok (p1, true, body) := by
  have hpre : HasPrefix (str "---" ++ rest) (str "---") = true := by
    simp [HasPrefix]
  have hsplit : SplitN (str "---" ++ rest) (str "---") 3 = [[], fm, body] := by
    have h0 : cut (str "---") (str "---" ++ rest) = some ([], rest) := by
      rw [str_dashes]
      simp [cut, List.isPrefixOf]
    simp [SplitN, h0, hcut]
  simp [frontMatter, hpre, hsplit, hyaml]

/-- The date of a blog document outside `blog/index/`: the first ten bytes of the
file name. -/
theorem pageDate_blog (dirs : List GoString) (stem : GoString)
    (hidx : dirs.head? ≠ some (str "index")) (hlen : 10 ≤ stem.length) :
    pageDate (str "amp" :: str "blog" :: (dirs ++ [stem])) = .ok (some (stem.take 10)) := by
  have hstem : stem ≠ str "index" := by
    intro h
    rw [h] at hlen
    revert hlen
    decide
  have hlast : (str "amp" :: str "blog" :: (dirs ++ [stem])).getLastD [] = stem := by
    rw [← List.cons_append, ← List.cons_append]
    exact getLastD_snoc _ _ _
  have h2 : ∃ s2, (str "amp" :: str "blog" :: (dirs ++ [stem]))[2]? = some s2 ∧ s2 ≠ str "index" := by
    cases dirs with
    | nil => exact ⟨stem, by simp, hstem⟩
    | cons d ds => exact ⟨d, by simp, fun h => hidx (by simp [h])⟩
  obtain ⟨s2, hs2, hne⟩ := h2
  have hnl : ¬ stem.length < 10 := by omega
  simp only [pageDate, hlast]
  simp [hs2, hne, hnl]

/-! ## Lemmas on sorting and on the walk -/

theorem sortSlice_perm {α : Type} (less : α → α → Bool) (xs : List α) :
    (sortSlice less xs).Perm xs :=
  List.perm_insertionSort _ xs

theorem sortSlice_sorted {α : Type} (less : α → α → Bool)
    (hasymm : ∀ a b, less a b = true → less b a = false)
    (htrans : ∀ a b c, less b a = false → less c b = false → less c a = false)
    (xs : List α) : (sortSlice less xs).Pairwise (fun a b => less b a = false) := by
  haveI : IsTotal α (fun a b => less b a = false) :=
    ⟨fun a b => by
      cases h : less b a
      · exact Or.inl rfl
      · exact Or.inr (hasymm b a h)⟩
  haveI : IsTrans α (fun a b => less b a = false) := ⟨fun a b c hab hbc => htrans a b c hab hbc⟩
  exact List.sorted_insertionSort (fun a b => less b a = false) xs

/-- What a successful `parsePage` returns: the segments of the path and a page
whose date is the one of main.go:195-197 when that step sets one. -/
theorem parsePage_ok_inv (o : options) (w : World) (fp : GoString) (fps : List GoString)
    (p : Page) (h : parsePage o w fp = .ok (fps, p, none)) :
    fps = pathSegments fp ∧
      ∃ d, pageDate (pathSegments fp) = .ok d ∧ ∀ x, d = some x → p.Date = x := by
  unfold parsePage at h
  simp only at h
  split at h
  · simp at h
  · split at h
    · simp at h
    · simp at h
    · split at h
      · simp at h
      · next hd =>
        simp only [Except.ok.injEq, Prod.mk.injEq, and_true] at h
        exact ⟨h.1.symm, none, hd, fun x hx => by simp at hx⟩
      · next d hd =>
        simp only [Except.ok.injEq, Prod.mk.injEq, and_true] at h
        refine ⟨h.1.symm, some d, hd, fun x hx => ?_⟩
        rw [← h.2]
        simpa using hx

/-- The date step on a document of the blog section outside `blog/index`. -/
theorem pageDate_ok_inv (fps : List GoString) (d : Option GoString)
    (h : pageDate fps = .ok d) (h1 : fps[1]? = some (str "blog"))
    (h2 : fps[2]? ≠ some (str "index")) : d = some ((fps.getLastD []).take 10) := by
  unfold pageDate at h
  simp only [h1] at h
  simp only [if_true] at h
  split at h
  · simp at h
  · next s2 hs2 =>
    have hne : s2 ≠ str "index" := fun e => h2 (by rw [hs2, e])
    simp only [hne, ne_eq, not_false_eq_true, if_true] at h
    split at h
    · simp at h
    · simpa using h.symm

/-- A summary returned by `processPage` belongs to a document of the blog section
and carries the date and title of its page and the file name as URL. -/
theorem processPage_summary_inv (o : options) (w : World) (fp : GoString)
    (urls : List GoString) (bp : BlogPost)
    (h : processPage o w fp = .ok (urls, some bp, none)) :
    ∃ p, parsePage o w fp = .ok (pathSegments fp, p, none) ∧
      (pathSegments fp)[1]? = some (str "blog") ∧
      urls = [p.URLCanonical, p.URLAMP] ∧
      bp = { Title := p.Title, Date := p.Date,
             URL := TrimSuffix ((pathSegments fp).getLastD []) (str ".html") } := by
  unfold processPage at h
  split at h
  · simp at h
  · simp at h
  · next fps p hp =>
    have hfps := (parsePage_ok_inv o w fp fps p hp).1
    subst hfps
    simp only at h
    split at h
    · simp at h
    · next s1 hs1 =>
      split at h
      · next hblog =>
        split at h
        · simp only [Except.ok.injEq, Prod.mk.injEq, Option.some.injEq, and_true] at h
          exact ⟨p, hp, by rw [hs1, hblog], h.1.symm, h.2.symm⟩
        · simp at h
      · split at h <;> simp at h

/-- Every summary the walk collects comes from `processPage` on one of the files
that is not the blog index. -/
theorem walk_blogPosts (o : options) (w : World) : ∀ (files : List GoString)
    (st st' : WalkState), walk o w st files = .ok (.ok st') →
    ∀ bp ∈ st'.blogPosts, bp ∈ st.blogPosts ∨
      ∃ fp ∈ files, Ext fp = str ".md" ∧ HasSuffix fp (str "blog/index.md") = false ∧
        ∃ urls, processPage o w fp = .ok (urls, some bp, none)
  | [], st, st', h, bp, hbp => by
    simp only [walk, Except.ok.injEq] at h
    rw [← h] at hbp
    exact Or.inl hbp
  | fp :: rest, st, st', h, bp, hbp => by
    unfold walk at h
    split at h
    · simp at h
    · simp at h
    · next st1 hst1 =>
      rcases walk_blogPosts o w rest st1 st' h bp hbp with hin | ⟨fp', hfp', hx⟩
      · unfold walkFile at hst1
        split at hst1
        · next hmd =>
          split at hst1
          · split at hst1
            · simp at hst1
            · simp only [Except.ok.injEq] at hst1
              rw [← hst1] at hin
              exact Or.inl hin
          · next hidx =>
            split at hst1
            · simp at hst1
            · simp at hst1
            · next urls b hproc =>
              simp only [Except.ok.injEq] at hst1
              rw [← hst1] at hin
              cases b with
              | none => exact Or.inl hin
              | some b0 =>
                simp only [List.mem_append, List.mem_singleton] at hin
                rcases hin with hin | hin
                · exact Or.inl hin
                · refine Or.inr ⟨fp, by simp, hmd, by simpa using hidx, urls, ?_⟩
                  rw [hin]
                  exact hproc
        · simp only [Except.ok.injEq] at hst1
          rw [← hst1] at hin
          exact Or.inl hin
      · exact Or.inr ⟨fp', List.mem_cons_of_mem _ hfp', hx⟩

/-- What a successful `processPages` has done. -/
theorem processPages_ok_inv (o : options) (w : World) (files : List GoString) (site : Site)
    (h : processPages o w files = .ok (.ok site)) :
    ∃ st u, walk o w {} files = .ok (.ok st) ∧
      site.blogPosts = sortSlice (fun a b => strLt b.URL a.URL) st.blogPosts ∧
      site.blogindex = { st.blogindex with Posts := site.blogPosts } ∧
      atomFeed o w site.blogPosts = .ok (site.feed, u) ∧
      site.sitemap = sortSlice strLt (st.sitemapPages ++ [u]) ∧
      site.sitemapText = Join site.sitemap (str "\n") := by
  unfold processPages at h
  split at h
  · simp at h
  · simp at h
  · next st hst =>
    simp only at h
    split at h
    · split at h
      · simp at h
      · next fd u hfeed =>
        split at h
        · simp only [Except.ok.injEq] at h
          subst h
          exact ⟨st, u, hst, rfl, rfl, hfeed, rfl, rfl⟩
        · simp at h
    · simp at h

/-! ## Canonical and AMP URL (C2) -/

/-- C2, as stated, fails: for the document `root/.md` the path of the URL normalized
into `URLAMP` is `amp`, not `amp/` followed by the (empty) path of the URL
normalized into `URLCanonical`; for `root/..md` the two paths are `amp` and `.`,
for `root/...md` they are `.` and `..`. -/
theorem amp_path_counterexample :
    (canonicalURL siteOptions (worldOf []) (str "root/.md")).Path = str "" ∧
    (ampURL siteOptions (worldOf []) (str "root/.md")).Path = str "amp" ∧
    (ampURL siteOptions (worldOf []) (str "root/.md")).Path
      ≠ str "amp/" ++ (canonicalURL siteOptions (worldOf []) (str "root/.md")).Path ∧
    (canonicalURL siteOptions (worldOf []) (str "root/..md")).Path = str "." ∧
    (ampURL siteOptions (worldOf []) (str "root/..md")).Path = str "amp" ∧
    (canonicalURL siteOptions (worldOf []) (str "root/...md")).Path = str ".." ∧
    (ampURL siteOptions (worldOf []) (str "root/...md")).Path = str "." := by
  decide

/-- C2, amended: for every source path `root/s1/.../sn.md` whose directories and
whose file name without `.md` are names (not empty, not `.` or `..`), the URL
normalized into `URLAMP` has the scheme and host of the one normalized into
`URLCanonical`, and its path is `amp/` followed by the canonical path. -/
theorem amp_path_of_names (o : options) (w : World) (root : GoString)
    (dirs : List GoString) (stem : GoString) (hroot : 47 ∉ root)
    (hdirs : ∀ d ∈ dirs, isName d) (hstem : isName stem) :
    (ampURL o w (sourcePath root dirs stem)).Scheme
      = (canonicalURL o w (sourcePath root dirs stem)).Scheme ∧
    (ampURL o w (sourcePath root dirs stem)).Host
      = (canonicalURL o w (sourcePath root dirs stem)).Host ∧
    (ampURL o w (sourcePath root dirs stem)).Path
      = str "amp/" ++ (canonicalURL o w (sourcePath root dirs stem)).Path := by
  have hseg := pathSegments_path root dirs stem hroot (fun d hd => (hdirs d hd).2.2.2)
    hstem.2.2.2
  have hnames : ∀ e ∈ dirs ++ [stem], isName e := by
    intro e he
    rcases List.mem_append.mp he with h | h
    · exact hdirs e h
    · rw [List.mem_singleton.mp h]
      exact hstem
  have hamp : isName (str "amp") := by decide
  have hall : ∀ e ∈ str "amp" :: (dirs ++ [stem]), isName e := by
    intro e he
    rcases List.mem_cons.mp he with h | h
    · rw [h]
      exact hamp
    · exact hnames e h
  have hne : dirs ++ [stem] ≠ [] := by simp
  obtain ⟨x, r, hxr⟩ := List.exists_cons_of_ne_nil hne
  refine ⟨rfl, rfl, ?_⟩
  simp only [ampURL, canonicalURL, hseg, List.drop_succ_cons, List.drop_zero]
  rw [filepathJoin_names _ (by simp) hall, filepathJoin_names _ hne hnames, hxr,
    join_cons_cons]
  rfl

theorem amp_path_of_names_witness :
    47 ∉ str "root" ∧ (∀ d ∈ [str "blog"], isName d) ∧ isName (str "2023-05-01-hello") ∧
    sourcePath (str "root") [str "blog"] (str "2023-05-01-hello")
      = str "root/blog/2023-05-01-hello.md" ∧
    (ampURL siteOptions (worldOf [])
        (sourcePath (str "root") [str "blog"] (str "2023-05-01-hello"))).Path
      = str "amp/" ++ (canonicalURL siteOptions (worldOf [])
        (sourcePath (str "root") [str "blog"] (str "2023-05-01-hello"))).Path :=
  ⟨by decide, by decide, by decide, by decide,
    (amp_path_of_names siteOptions (worldOf []) (str "root") [str "blog"]
      (str "2023-05-01-hello") (by decide) (by decide) (by decide)).2.2⟩

/-! ## The date of a page (C4) -/

/-- C4, as stated, fails: the front matter of `root/blog/2023-05-01-hello.md`
supplies the date `2019-12-31`, and the page returned has the date `2023-05-01`
of the file name. -/
theorem date_counterexample :
    ∃ fps p, (flatYAML (str "\ntitle: Hello\ndate: 2019-12-31\n") {}).1.Date = str "2019-12-31" ∧
      parsePage siteOptions (worldOf [helloPost]) helloPost.1 = .ok (fps, p, none) ∧
      p.Title = str "Hello" ∧ p.Date = str "2023-05-01" ∧ p.Date ≠ str "2019-12-31" :=
  ⟨_, _, by decide, rfl, by decide, by decide, by decide⟩

/-- C4, amended: for every blog document `root/blog/.../stem.md` outside
`blog/index/` whose file name has at least ten bytes before `.md`, once the file
is read and its front matter (if any) decoded into a page `p1`, `parsePage`
returns `p1` with the rendered body and with `Date` the first ten bytes of the
file name, whatever date the front matter supplied in `p1.Date`. -/
theorem date_from_file_name (o : options) (w : World) (root : GoString)
    (dirs : List GoString) (stem b body : GoString) (p1 : Page)
    (hroot : 47 ∉ root) (hdirs : ∀ d ∈ dirs, 47 ∉ d) (hstem : 47 ∉ stem)
    (hidx : dirs.head? ≠ some (str "index")) (hlen : 10 ≤ stem.length)
    (hread : w.readFile (sourcePath root (str "blog" :: dirs) stem) = some b)
    (hfm : frontMatter w (initialPage o w (sourcePath root (str "blog" :: dirs) stem)) b
      = .ok (p1, true, body)) :
    parsePage o w (sourcePath root (str "blog" :: dirs) stem)
      = .ok (str "amp" :: str "blog" :: (dirs ++ [stem]),
          { p1 with Main := w.markdown body, Date := stem.take 10 }, none) := by
  have hseg : pathSegments (sourcePath root (str "blog" :: dirs) stem)
      = str "amp" :: str "blog" :: (dirs ++ [stem]) := by
    have h := pathSegments_path root (str "blog" :: dirs) stem hroot
      (by
        intro d hd
        rcases List.mem_cons.mp hd with h | h
        · rw [h]
          decide
        · exact hdirs d h)
      hstem
    simpa using h
  rw [parsePage_of_frontMatter o w _ b body p1 hread hfm, hseg, pageDate_blog dirs stem hidx hlen]

theorem date_from_file_name_witness :
    sourcePath (str "root") [str "blog"] (str "2023-05-01-hello") = helloPost.1 ∧
    (frontMatter (worldOf [helloPost]) (initialPage siteOptions (worldOf [helloPost])
        helloPost.1) helloPost.2).map (fun r => (r.1.Date, r.2)) =
      .ok (str "2019-12-31", true, str "\nHi") ∧
    ∃ fps p, parsePage siteOptions (worldOf [helloPost])
        (sourcePath (str "root") [str "blog"] (str "2023-05-01-hello")) = .ok (fps, p, none) ∧
      p.Date = str "2023-05-01" :=
  ⟨by decide, rfl, _, _,
    date_from_file_name siteOptions (worldOf [helloPost]) (str "root") [] (str "2023-05-01-hello")
      helloPost.2 (str "\nHi") _ (by decide) (by decide) (by decide) (by decide) (by decide)
      rfl rfl, by decide⟩

/-! ## A document without front matter (C6) -/

/-- C6, as stated, fails: `root/blog/2023-05-01-plain.md` has no front matter, and
the page returned has the configured analytics id in `GAID` and the first ten
bytes of the file name in `Date`. -/
theorem plain_document_counterexample :
    ∃ fps p, HasPrefix (str "Hi") (str "---") = false ∧
      parsePage siteOptions (worldOf [(str "root/blog/2023-05-01-plain.md", str "Hi")])
        (str "root/blog/2023-05-01-plain.md") = .ok (fps, p, none) ∧
      p.GAID = str "UA-1" ∧ p.GAID ≠ [] ∧ p.Date = str "2023-05-01" ∧ p.Date ≠ [] :=
  ⟨_, _, by decide, rfl, by decide, by decide, by decide, by decide⟩

/-- The date step of main.go:195-197 when it does not panic: the first ten bytes
of the file name for a blog document outside `blog/index`, nothing otherwise. -/
theorem pageDate_eq (fps : List GoString) (hlen : 2 ≤ fps.length)
    (hblog : fps[1]? = some (str "blog") → 3 ≤ fps.length)
    (hname : fps[1]? = some (str "blog") → fps[2]? ≠ some (str "index") →
      10 ≤ (fps.getLastD []).length) :
    pageDate fps = .ok (if fps[1]? = some (str "blog") ∧ fps[2]? ≠ some (str "index")
      then some ((fps.getLastD []).take 10) else none) := by
  obtain ⟨s1, hs1⟩ : ∃ s1, fps[1]? = some s1 :=
    ⟨fps[1], List.getElem?_eq_getElem (by omega)⟩
  unfold pageDate
  simp only [hs1]
  by_cases hb : s1 = str "blog"
  · subst hb
    have h3 := hblog hs1
    obtain ⟨s2, hs2⟩ : ∃ s2, fps[2]? = some s2 :=
      ⟨fps[2], List.getElem?_eq_getElem (by omega)⟩
    simp only [hs2, if_true, true_and]
    by_cases hi : s2 = str "index"
    · simp [hi]
    · have h10 := hname hs1 (by rw [hs2]; simpa using hi)
      have hnl : ¬ (fps.getLastD []).length < 10 := by omega
      simp only [hi, ne_eq, not_false_eq_true, if_true, hnl, if_false, Option.some.injEq]
  · simp [hb]

/-- C6, amended: for every document whose bytes do not begin with `---` and whose
path does not make `parsePage` panic (at least two segments; three in the blog
section, with a file name of ten bytes or more outside `blog/index`), `parsePage`
returns the page whose `Main` is the Markdown rendering of the whole input, whose
`Title`, `Description`, `Style` and `Header` are empty and `AMP` false, whose
`GAID` is the configured id, and whose `Date` is the first ten bytes of the file
name for a blog document outside `blog/index` and empty for any other document. -/
theorem plain_document_page (o : options) (w : World) (fp b : GoString)
    (hread : w.readFile fp = some b) (hplain : HasPrefix b (str "---") = false)
    (hlen : 2 ≤ (pathSegments fp).length)
    (hblog : (pathSegments fp)[1]? = some (str "blog") → 3 ≤ (pathSegments fp).length)
    (hname : (pathSegments fp)[1]? = some (str "blog") →
      (pathSegments fp)[2]? ≠ some (str "index") →
      10 ≤ ((pathSegments fp).getLastD []).length) :
    parsePage o w fp = .ok (pathSegments fp,
      { URLCanonical := w.normalizeURL (w.urlString (canonicalURL o w fp))
        URLAMP := w.normalizeURL (w.urlString (ampURL o w fp))
        AMP := false
        GAID := o.gaID
        Title := []
        Description := []
        Style := []
        Header := []
        Main := w.markdown b
        Date :=
          if (pathSegments fp)[1]? = some (str "blog") ∧
              (pathSegments fp)[2]? ≠ some (str "index")
          then ((pathSegments fp).getLastD []).take 10 else []
        Posts := [] }, none) := by
  rw [parsePage_of_frontMatter o w fp b b _ hread (frontMatter_plain w _ b hplain),
    pageDate_eq _ hlen hblog hname]
  split_ifs <;> rfl

theorem plain_document_page_witness :
    pathSegments (str "root/blog/2023-05-01-plain.md")
      = [str "amp", str "blog", str "2023-05-01-plain"] ∧
    (∃ p, parsePage siteOptions (worldOf [(str "root/blog/2023-05-01-plain.md", str "Hi")])
        (str "root/blog/2023-05-01-plain.md")
        = .ok ([str "amp", str "blog", str "2023-05-01-plain"], p, none) ∧
      p.Main = str "<p>Hi</p>\n" ∧ p.Title = [] ∧ p.GAID = str "UA-1" ∧
      p.Date = str "2023-05-01") ∧
    (∃ p, parsePage siteOptions (worldOf [(str "root/about.md", str "Hi")]) (str "root/about.md")
        = .ok ([str "amp", str "about"], p, none) ∧
      p.Main = str "<p>Hi</p>\n" ∧ p.Title = [] ∧ p.GAID = str "UA-1" ∧ p.Date = []) :=
  ⟨by decide,
    ⟨_, plain_document_page siteOptions
        (worldOf [(str "root/blog/2023-05-01-plain.md", str "Hi")])
        (str "root/blog/2023-05-01-plain.md") (str "Hi") rfl (by decide) (by decide)
        (by decide) (by decide),
      by decide, by decide, by decide, by decide⟩,
    ⟨_, plain_document_page siteOptions (worldOf [(str "root/about.md", str "Hi")])
        (str "root/about.md") (str "Hi") rfl (by decide) (by decide) (by decide) (by decide),
      by decide, by decide, by decide, by decide⟩⟩

/-! ## Indexing and slicing in `parsePage` (C10) -/

/-- C10 fails on the code: for a readable `root/blog.md` without front matter,
`fps[2]` at main.go:195 is out of range, and for a readable `root/blog/about.md`
the slice `[:10]` at main.go:196 is; both calls panic, and so does `processPage`,
which calls `parsePage` first. -/
theorem parsePage_out_of_range (o : options) (w : World) (b1 b2 : GoString)
    (hread1 : w.readFile (str "root/blog.md") = some b1)
    (hplain1 : HasPrefix b1 (str "---") = false)
    (hread2 : w.readFile (str "root/blog/about.md") = some b2)
    (hplain2 : HasPrefix b2 (str "---") = false) :
    parsePage o w (str "root/blog.md") = .error .indexOutOfRange ∧
    processPage o w (str "root/blog.md") = .error .indexOutOfRange ∧
    parsePage o w (str "root/blog/about.md") = .error .sliceOutOfRange ∧
    processPage o w (str "root/blog/about.md") = .error .sliceOutOfRange := by
  have h1 : parsePage o w (str "root/blog.md") = .error .indexOutOfRange := by
    rw [parsePage_of_frontMatter o w _ b1 b1 _ hread1 (frontMatter_plain w _ b1 hplain1)]
    rfl
  have h2 : parsePage o w (str "root/blog/about.md") = .error .sliceOutOfRange := by
    rw [parsePage_of_frontMatter o w _ b2 b2 _ hread2 (frontMatter_plain w _ b2 hplain2)]
    rfl
  refine ⟨h1, ?_, h2, ?_⟩
  · simp only [processPage, h1]
  · simp only [processPage, h2]

theorem parsePage_out_of_range_witness :
    pathSegments (str "root/blog.md") = [str "amp", str "blog"] ∧
    pathSegments (str "root/blog/about.md") = [str "amp", str "blog", str "about"] ∧
    parsePage siteOptions
        (worldOf [(str "root/blog.md", str "Hi"), (str "root/blog/about.md", str "Hi")])
        (str "root/blog.md") = .error .indexOutOfRange ∧
    parsePage siteOptions
        (worldOf [(str "root/blog.md", str "Hi"), (str "root/blog/about.md", str "Hi")])
        (str "root/blog/about.md") = .error .sliceOutOfRange :=
  have h := parsePage_out_of_range siteOptions
    (worldOf [(str "root/blog.md", str "Hi"), (str "root/blog/about.md", str "Hi")])
    (str "Hi") (str "Hi") rfl (by decide) rfl (by decide)
  ⟨by decide, by decide, h.1, h.2.2.1⟩

/-! ## The order of the blog summaries (C1) -/

/-- C1, as stated, fails: for the blog documents `notes-2.html.md` and
`notes.html.md` (file names of more than ten characters) the list stored in
`blogindex.Posts` and passed to `atomFeed` has the summary with URL `notes-2` and
date `notes-2.ht` before the one with URL `notes` and the greater date
`notes.html`; and for a post in the directory `blog/index`, whose date is not
taken from its name, the summary with the empty date comes first. -/
theorem summary_order_counterexample :
    ∃ site a b, processPages siteOptions (worldOf htmlNamedPosts) (htmlNamedPosts.map Prod.fst)
        = .ok (.ok site) ∧
      site.blogindex.Posts = [a, b] ∧ site.blogPosts = [a, b] ∧
      a.URL = str "notes-2" ∧ a.Date = str "notes-2.ht" ∧
      b.URL = str "notes" ∧ b.Date = str "notes.html" ∧
      strLt a.Date b.Date = true ∧ ¬ newestFirst a b ∧
      ∃ site2 c d, processPages siteOptions (worldOf indexDirPosts)
          (indexDirPosts.map Prod.fst) = .ok (.ok site2) ∧
        site2.blogPosts = [c, d] ∧ c.URL = str "2021-01-01-b" ∧ c.Date = [] ∧
        d.URL = str "2020-01-01-a" ∧ d.Date = str "2020-01-01" ∧ ¬ newestFirst c d :=
  ⟨_, _, _, rfl, rfl, rfl, by decide, by decide, by decide, by decide, by decide, by decide,
    _, _, _, rfl, rfl, by decide, by decide, by decide, by decide, by decide⟩

/-- From URL order to date order when each date is the first ten bytes of the URL. -/
theorem newestFirst_of_url_order (l : List BlogPost)
    (hsorted : l.Pairwise (fun a b => strLt a.URL b.URL = false))
    (hdate : ∀ bp ∈ l, bp.Date = bp.URL.take 10) : l.Chain' newestFirst := by
  refine List.Pairwise.chain' (List.Pairwise.imp_of_mem ?_ hsorted)
  intro a b ha hb hab
  have hge : strLt a.Date b.Date = false := by
    rw [hdate a ha, hdate b hb]
    exact strLt_take 10 _ _ hab
  cases hlt : strLt b.Date a.Date
  · exact Or.inr ⟨strLt_antisymm _ _ hge hlt, hab⟩
  · exact Or.inl hlt

theorem take_trimSuffix (s suf : GoString) (h : 10 ≤ (TrimSuffix s suf).length) :
    (TrimSuffix s suf).take 10 = s.take 10 := by
  unfold TrimSuffix at h ⊢
  split
  · next hs =>
    simp only [hs, if_true, List.length_take] at h
    rw [List.take_take]
    congr 1
    omega
  · rfl

/-- C1, amended: when every Markdown document of the blog section is dated by its
name (it does not lie under `blog/index`, and its URL, the file name without `.md`
and a final `.html`, has at least ten bytes), the summary list that a successful
`processPages` stores in `blogindex.Posts` and passes to `atomFeed` is ordered
newest first, ties broken by descending URL: of two adjacent summaries `a`, `b`,
either `a.Date > b.Date`, or the dates are equal and `a.URL ≥ b.URL`. -/
theorem summaries_newest_first (o : options) (w : World) (files : List GoString) (site : Site)
    (hfiles : ∀ fp ∈ files, Ext fp = str ".md" → HasSuffix fp (str "blog/index.md") = false →
      (pathSegments fp)[1]? = some (str "blog") → datedByName fp)
    (hrun : processPages o w files = .ok (.ok site)) :
    site.blogindex.Posts = site.blogPosts ∧ site.blogPosts.Chain' newestFirst := by
  obtain ⟨st, u, hwalk, hposts, hindex, _, _, _⟩ := processPages_ok_inv o w files site hrun
  refine ⟨by rw [hindex], ?_⟩
  have hsorted : site.blogPosts.Pairwise (fun a b => strLt a.URL b.URL = false) := by
    rw [hposts]
    exact sortSlice_sorted (fun a b : BlogPost => strLt b.URL a.URL)
      (fun a b h => strLt_asymm _ _ h) (fun a b c h1 h2 => strLt_ge_trans _ _ _ h1 h2) _
  refine newestFirst_of_url_order _ hsorted ?_
  intro bp hbp
  have hmem : bp ∈ st.blogPosts := by
    rw [hposts] at hbp
    exact (sortSlice_perm _ _).mem_iff.mp hbp
  rcases walk_blogPosts o w files {} st hwalk bp hmem with
    h | ⟨fp, hfp, hmd, hidx, urls, hproc⟩
  · simp at h
  · obtain ⟨p, hparse, hblog, _, hbp⟩ := processPage_summary_inv o w fp urls bp hproc
    obtain ⟨h2, hurl⟩ := hfiles fp hfp hmd hidx hblog
    obtain ⟨_, d, hd, hdx⟩ := parsePage_ok_inv o w fp _ p hparse
    have hdate := hdx _ (pageDate_ok_inv _ d hd hblog h2)
    rw [hbp]
    simp only [take_trimSuffix _ _ hurl]
    exact hdate

theorem summaries_newest_first_witness :
    ∃ site a b, processPages siteOptions (worldOf datedPosts) (datedPosts.map Prod.fst)
        = .ok (.ok site) ∧
      site.blogPosts = [a, b] ∧
      a.URL = str "2023-05-02-again" ∧ a.Date = str "2023-05-02" ∧
      b.URL = str "2023-05-01-hello" ∧ b.Date = str "2023-05-01" ∧
      site.blogindex.Title = str "Blog" ∧
      site.blogindex.Posts = site.blogPosts ∧ site.blogPosts.Chain' newestFirst :=
  ⟨_, _, _, rfl, rfl, by decide, by decide, by decide, by decide, by decide,
    summaries_newest_first siteOptions (worldOf datedPosts) (datedPosts.map Prod.fst) _
      (by decide) rfl⟩

/-! ## The sitemap (C3) -/

theorem str_newline : str "\n" = [10] := rfl

set_option maxRecDepth 100000 in
/-- C3, as stated, fails: for the documents `root/a.md` and `root/amp/a.md` the
AMP URL of the first is the canonical URL of the second, and the lines written to
`sitemap.txt` hold it twice; and a canonical URL with a newline in it, set by
front matter, is written as two lines `z` and `a` that are out of order. -/
theorem sitemap_counterexample :
    (∃ site, processPages siteOptions (worldOf ampNamedPages) (ampNamedPages.map Prod.fst)
        = .ok (.ok site) ∧
      lines site.sitemapText = [str "https://seankhliao.com/a", str "https://seankhliao.com/amp/a",
        str "https://seankhliao.com/amp/a", str "https://seankhliao.com/amp/amp/a",
        str "https://seankhliao.com/feed.atom"] ∧
      ¬ (lines site.sitemapText).Nodup ∧
      ¬ (lines site.sitemapText).Pairwise (fun a b => strLt a b = true)) ∧
    (∃ site, processPages siteOptions (worldOf [newlinePage]) [newlinePage.1]
        = .ok (.ok site) ∧
      lines site.sitemapText = [str "https://seankhliao.com/amp/a",
        str "https://seankhliao.com/feed.atom", str "z", str "a"] ∧
      ¬ (lines site.sitemapText).Pairwise (fun a b => strLt b a = false)) :=
  ⟨⟨_, rfl, by decide, by decide, by decide⟩, ⟨_, rfl, by decide, by decide⟩⟩

/-- The URLs `processPage` returns are those of the page `parsePage` returns. -/
theorem processPage_urls_inv (o : options) (w : World) (fp : GoString)
    (urls : List GoString) (bp : Option BlogPost)
    (h : processPage o w fp = .ok (urls, bp, none)) : urls = documentURLs o w fp := by
  unfold processPage at h
  unfold documentURLs
  split at h
  · simp at h
  · simp at h
  · next fps p hp =>
    simp only [hp]
    simp only at h
    split at h
    · simp at h
    · split at h
      · split at h
        · simp only [Except.ok.injEq, Prod.mk.injEq, and_true] at h
          exact h.1.symm
        · simp at h
      · split at h
        · simp only [Except.ok.injEq, Prod.mk.injEq, and_true] at h
          exact h.1.symm
        · simp at h

/-- The sitemap list after the walk: the URLs of the pages, in walk order. -/
theorem walk_sitemapPages (o : options) (w : World) : ∀ (files : List GoString)
    (st st' : WalkState), walk o w st files = .ok (.ok st') →
    st'.sitemapPages = st.sitemapPages ++ (files.filter isPage).flatMap (documentURLs o w)
  | [], st, st', h => by
    simp only [walk, Except.ok.injEq] at h
    simp [← h]
  | fp :: rest, st, st', h => by
    unfold walk at h
    split at h
    · simp at h
    · simp at h
    · next st1 hst1 =>
      have ih := walk_sitemapPages o w rest st1 st' h
      have h1 : st1.sitemapPages = st.sitemapPages ++
          (if isPage fp = true then documentURLs o w fp else []) := by
        unfold walkFile at hst1
        unfold isPage
        split at hst1
        · next hmd =>
          split at hst1
          · next hidx =>
            split at hst1
            · simp at hst1
            · simp only [Except.ok.injEq] at hst1
              simp [← hst1, hidx]
          · next hidx =>
            split at hst1
            · simp at hst1
            · simp at hst1
            · next urls b hproc =>
              simp only [Except.ok.injEq] at hst1
              simp [← hst1, hmd, hidx, processPage_urls_inv o w fp urls b hproc]
        · next hmd =>
          simp only [Except.ok.injEq] at hst1
          simp [← hst1, hmd]
      rw [ih, h1, List.filter_cons]
      split_ifs <;> simp

/-- C3, amended: when no URL of a page and not the feed URL holds a newline, the
lines a successful `processPages` writes to `sitemap.txt` are lexically sorted, no
line less than the one before it, and they are the canonical and AMP URLs of the
pages of all Markdown documents other than the blog index, and the feed URL,
rearranged, each as often as it was emitted: a URL that two documents share
stays twice. -/
theorem sitemap_lines_sorted (o : options) (w : World) (files : List GoString) (site : Site)
    (hpages : ∀ fp ∈ files, isPage fp = true → ∀ u ∈ documentURLs o w fp, 10 ∉ u)
    (hfeed : 10 ∉ feedURL o w)
    (hrun : processPages o w files = .ok (.ok site)) :
    (lines site.sitemapText).Pairwise (fun a b => strLt b a = false) ∧
    (lines site.sitemapText).Perm
      ((files.filter isPage).flatMap (documentURLs o w) ++ [feedURL o w]) := by
  obtain ⟨st, u, hwalk, _, _, hatom, hmap, htext⟩ := processPages_ok_inv o w files site hrun
  have hu : u = feedURL o w := by
    unfold atomFeed at hatom
    simp only at hatom
    split at hatom
    · simp only [Except.ok.injEq, Prod.mk.injEq] at hatom
      exact hatom.2.symm
    · simp at hatom
  have hcollected := walk_sitemapPages o w files {} st hwalk
  simp only [List.nil_append] at hcollected
  rw [hcollected, hu] at hmap
  have hperm : site.sitemap.Perm
      ((files.filter isPage).flatMap (documentURLs o w) ++ [feedURL o w]) := by
    rw [hmap]
    exact sortSlice_perm _ _
  have hne : site.sitemap ≠ [] := by
    intro h
    rw [h] at hperm
    simpa using hperm.length_eq
  have hnl : ∀ x ∈ site.sitemap, 10 ∉ x := by
    intro x hx
    rcases List.mem_append.mp (hperm.mem_iff.mp hx) with h | h
    · obtain ⟨fp, hfp, hxfp⟩ := List.mem_flatMap.mp h
      obtain ⟨hfiles, hpage⟩ := List.mem_filter.mp hfp
      exact hpages fp hfiles hpage x hxfp
    · rw [List.mem_singleton.mp h]
      exact hfeed
  have hlines : lines site.sitemapText = site.sitemap := by
    unfold lines
    rw [htext, str_newline]
    exact split_join 10 _ hne hnl
  rw [hlines]
  refine ⟨?_, hperm⟩
  rw [hmap]
  exact sortSlice_sorted strLt strLt_asymm (fun a b c h1 h2 => strLt_ge_trans c b a h2 h1) _

set_option maxRecDepth 100000 in
theorem sitemap_lines_sorted_witness :
    (∀ fp ∈ datedPosts.map Prod.fst, isPage fp = true →
      ∀ u ∈ documentURLs siteOptions (worldOf datedPosts) fp, 10 ∉ u) ∧
    10 ∉ feedURL siteOptions (worldOf datedPosts) ∧
    ∃ site, processPages siteOptions (worldOf datedPosts) (datedPosts.map Prod.fst)
        = .ok (.ok site) ∧
      lines site.sitemapText = [str "https://seankhliao.com/amp/blog/2023-05-01-hello",
        str "https://seankhliao.com/amp/blog/2023-05-02-again.html",
        str "https://seankhliao.com/blog/2023-05-01-hello",
        str "https://seankhliao.com/blog/2023-05-02-again.html",
        str "https://seankhliao.com/feed.atom"] ∧
      (lines site.sitemapText).Pairwise (fun a b => strLt b a = false) ∧
      (lines site.sitemapText).Perm
        (((datedPosts.map Prod.fst).filter isPage).flatMap
            (documentURLs siteOptions (worldOf datedPosts))
          ++ [feedURL siteOptions (worldOf datedPosts)]) :=
  ⟨by decide, by decide, _, rfl, by decide,
    sitemap_lines_sorted siteOptions (worldOf datedPosts) (datedPosts.map Prod.fst) _
      (by decide) (by decide) rfl⟩

/-! ## The links of a feed entry (C5) -/

/-- C5, as stated, fails: for the blog document `root/blog/2020/2020-01-01-post.md`
the page has the canonical URL `.../blog/2020/2020-01-01-post`, and the entry
`atomFeed` builds from its summary links to `.../blog/2020-01-01-post`. The
links also differ for `root/blog/notes.html.md` (the summary's URL drops `.html`)
and for a post whose front matter sets `urlcanonical`. -/
theorem feed_links_counterexample :
    ∃ fps p urls bp,
      parsePage siteOptions (worldOf [nestedPost]) nestedPost.1 = .ok (fps, p, none) ∧
      processPage siteOptions (worldOf [nestedPost]) nestedPost.1 = .ok (urls, some bp, none) ∧
      p.URLCanonical = str "https://seankhliao.com/blog/2020/2020-01-01-post" ∧
      p.URLAMP = str "https://seankhliao.com/amp/blog/2020/2020-01-01-post" ∧
      (atomEntry siteOptions (worldOf [nestedPost]) bp).Link =
        [{ Rel := str "alternate", Href := str "https://seankhliao.com/blog/2020-01-01-post",
           Typ := str "text/html" },
         { Rel := str "amphtml", Href := str "https://seankhliao.com/amp/blog/2020-01-01-post",
           Typ := str "text/html" }] ∧
      (atomEntry siteOptions (worldOf [nestedPost]) bp).ID ≠ p.URLCanonical ∧
      (∃ fps2 p2 urls2 bp2,
        parsePage siteOptions (worldOf htmlNamedPosts) (str "root/blog/notes.html.md")
          = .ok (fps2, p2, none) ∧
        processPage siteOptions (worldOf htmlNamedPosts) (str "root/blog/notes.html.md")
          = .ok (urls2, some bp2, none) ∧
        p2.URLCanonical = str "https://seankhliao.com/blog/notes.html" ∧
        (atomEntry siteOptions (worldOf htmlNamedPosts) bp2).ID
          = str "https://seankhliao.com/blog/notes") ∧
      (∃ fps3 p3 urls3 bp3,
        parsePage siteOptions (worldOf [overridingPost]) overridingPost.1
          = .ok (fps3, p3, none) ∧
        processPage siteOptions (worldOf [overridingPost]) overridingPost.1
          = .ok (urls3, some bp3, none) ∧
        p3.URLCanonical = str "https://example.com/x" ∧
        (atomEntry siteOptions (worldOf [overridingPost]) bp3).ID
          = str "https://seankhliao.com/blog/2023-05-03-moved") :=
  ⟨_, _, _, _, rfl, rfl, by decide, by decide, by decide, by decide,
    ⟨_, _, _, _, rfl, rfl, by decide, by decide⟩,
    ⟨_, _, _, _, rfl, rfl, by decide, by decide⟩⟩

/-- C5, amended: for every blog document directly in the blog section,
`root/blog/stem.md` with a file name of at least ten bytes that does not end in
`.html` before `.md`, whose front matter (if any) leaves the two URLs as derived
from the path, and with templates that render, `processPage` yields a page `p`
and a summary `bp` such that the Atom entry built from `bp` has `p.URLCanonical`
as its ID and as the `Href` of its `alternate` link, and `p.URLAMP` as the `Href`
of its `amphtml` link. -/
theorem feed_links_of_flat_post (o : options) (w : World) (root stem b body : GoString)
    (p1 : Page) (hroot : 47 ∉ root) (hstem : 47 ∉ stem) (hlen : 10 ≤ stem.length)
    (hhtml : HasSuffix stem (str ".html") = false)
    (hread : w.readFile (sourcePath root [str "blog"] stem) = some b)
    (hfm : frontMatter w (initialPage o w (sourcePath root [str "blog"] stem)) b
      = .ok (p1, true, body))
    (hC : p1.URLCanonical = (initialPage o w (sourcePath root [str "blog"] stem)).URLCanonical)
    (hA : p1.URLAMP = (initialPage o w (sourcePath root [str "blog"] stem)).URLAMP)
    (hwrite : ∀ h t p, w.writeTemplate h t p = true) :
    ∃ p bp,
      parsePage o w (sourcePath root [str "blog"] stem)
        = .ok ([str "amp", str "blog", stem], p, none) ∧
      processPage o w (sourcePath root [str "blog"] stem)
        = .ok ([p.URLCanonical, p.URLAMP], some bp, none) ∧
      (atomEntry o w bp).ID = p.URLCanonical ∧
      (atomEntry o w bp).Link =
        [{ Rel := str "alternate", Href := p.URLCanonical, Typ := str "text/html" },
         { Rel := str "amphtml", Href := p.URLAMP, Typ := str "text/html" }] := by
  have hseg : pathSegments (sourcePath root [str "blog"] stem)
      = [str "amp", str "blog", stem] := by
    have h := pathSegments_path root [str "blog"] stem hroot
      (by
        intro d hd
        rw [List.mem_singleton.mp hd]
        decide)
      hstem
    simpa using h
  have hparse : parsePage o w (sourcePath root [str "blog"] stem)
      = .ok ([str "amp", str "blog", stem],
          { p1 with Main := w.markdown body, Date := stem.take 10 }, none) := by
    rw [parsePage_of_frontMatter o w _ b body p1 hread hfm, hseg]
    have hd := pageDate_blog [] stem (by simp) hlen
    simp only [List.nil_append] at hd
    rw [hd]
  have hname : isName stem := by
    refine ⟨?_, ?_, ?_, hstem⟩
    · intro h
      rw [h] at hlen
      simp at hlen
    · intro h
      rw [h] at hlen
      revert hlen
      decide
    · intro h
      rw [h] at hlen
      revert hlen
      decide
  have hblog : isName (str "blog") := by decide
  have hamp : isName (str "amp") := by decide
  have hflat : filepathJoin [str "blog", stem] = Join [str "blog", stem] (str "/") :=
    filepathJoin_names _ (by simp) (by
      intro e he
      simp only [List.mem_cons, List.mem_singleton, List.not_mem_nil, or_false] at he
      rcases he with rfl | rfl
      · exact hblog
      · exact hname)
  have hampflat : filepathJoin [str "amp", filepathJoin [str "blog", stem]]
      = filepathJoin [str "amp", str "blog", stem] := by
    have hne : str "amp" ≠ [] := by decide
    rw [hflat]
    simp only [filepathJoin, hne, if_false]
    rw [join_cons_cons (str "amp") (Join [str "blog", stem] (str "/")) [], join_singleton,
      join_cons_cons (str "amp") (str "blog") [stem]]
  refine ⟨{ p1 with Main := w.markdown body, Date := stem.take 10 },
    { Title := p1.Title, Date := stem.take 10, URL := stem }, hparse, ?_, ?_, ?_⟩
  · have hlast : [str "amp", str "blog", stem].getLastD [] = stem := rfl
    simp only [processPage, hparse]
    simp [hwrite, hlast, trimSuffix_of_not _ _ hhtml]
  · simp only [atomEntry, hC, initialPage, canonicalURL, hseg]
    rfl
  · simp only [atomEntry, hC, hA, initialPage, canonicalURL, ampURL, hseg, hampflat]
    rfl

theorem feed_links_of_flat_post_witness :
    sourcePath (str "root") [str "blog"] (str "2023-05-01-hello") = helloPost.1 ∧
    ∃ p bp,
      parsePage siteOptions (worldOf [helloPost]) helloPost.1
        = .ok ([str "amp", str "blog", str "2023-05-01-hello"], p, none) ∧
      processPage siteOptions (worldOf [helloPost]) helloPost.1
        = .ok ([p.URLCanonical, p.URLAMP], some bp, none) ∧
      (atomEntry siteOptions (worldOf [helloPost]) bp).ID = p.URLCanonical ∧
      (atomEntry siteOptions (worldOf [helloPost]) bp).Link =
        [{ Rel := str "alternate", Href := p.URLCanonical, Typ := str "text/html" },
         { Rel := str "amphtml", Href := p.URLAMP, Typ := str "text/html" }] :=
  ⟨by decide,
    feed_links_of_flat_post siteOptions (worldOf [helloPost]) (str "root")
      (str "2023-05-01-hello") helloPost.2 (str "\nHi") _ (by decide) (by decide) (by decide)
      (by decide) rfl rfl rfl rfl (fun _ _ _ => rfl)⟩

/-! ## The simple variant: a document without the header terminator (C7) -/

theorem str_terminator : str "\n---\n" = [10, 45, 45, 45, 10] := rfl

theorem cut_none_of_not_infix (sep : GoString) : ∀ s : GoString, ¬ sep <:+: s → cut sep s = none
  | [], _ => rfl
  | c :: cs, h => by
    have hpre : sep.isPrefixOf (c :: cs) = false := by
      cases hp : sep.isPrefixOf (c :: cs)
      · rfl
      · exact absurd (List.isPrefixOf_iff_prefix.mp hp).isInfix h
    have ih := cut_none_of_not_infix sep cs (fun hi => h (List.infix_cons hi))
    simp [cut, hpre, ih]

/-- C7, as stated, fails: `src/blog/d.md` holds `no header`, without the
terminator, and `parsePost` returns a post with an empty `Content`, not the
rendering of the input, and renders no page. -/
theorem no_terminator_counterexample :
    ¬ str "\n---\n" <:+: str "no header" ∧
    parsePost (envOf simplePosts) (str "blog-post") (str "src/blog/d.md")
      = ({ URL := str "/blog/d" }, [.logExpectedDelimiter (str "src/blog/d.md")]) ∧
    (parsePost (envOf simplePosts) (str "blog-post") (str "src/blog/d.md")).1.Content = [] ∧
    (envOf simplePosts).markdown (str "no header") = str "<p>no header</p>\n" ∧
    (parsePost (envOf simplePosts) (str "blog-post") (str "src/blog/d.md")).1.Content
      ≠ (envOf simplePosts).markdown (str "no header") := by
  decide

/-- C7, amended: for every readable document whose bytes do not contain the
terminator `\n---\n`, `parsePost` logs that it expected `---` and returns at
once: the post has its URL and empty `Title`, `Date`, `Desc` and `Content`, and
no page is rendered. -/
theorem parsePost_without_terminator (e : Env) (tmpl fp b : GoString)
    (hread : e.readFile fp = some b) (hno : ¬ str "\n---\n" <:+: b) :
    parsePost e tmpl fp =
      ({ Title := [], URL := TrimPrefix (TrimSuffix fp MdExt) e.Src, Desc := [], Date := [],
         Content := [] }, [.logExpectedDelimiter fp]) := by
  have hcut := cut_none_of_not_infix _ b hno
  simp [parsePost, hread, SplitN, hcut]

theorem parsePost_without_terminator_witness :
    (envOf simplePosts).readFile (str "src/blog/d.md") = some (str "no header") ∧
    ¬ str "\n---\n" <:+: str "no header" ∧
    parsePost (envOf simplePosts) (str "blog-post") (str "src/blog/d.md") =
      ({ Title := [], URL := TrimPrefix (TrimSuffix (str "src/blog/d.md") MdExt) (str "src"),
         Desc := [], Date := [], Content := [] },
        [.logExpectedDelimiter (str "src/blog/d.md")]) :=
  ⟨by decide, by decide,
    parsePost_without_terminator (envOf simplePosts) (str "blog-post") (str "src/blog/d.md")
      (str "no header") (by decide) (by decide)⟩

/-! ## The simple variant: an empty header (C9) -/

/-- C9 fails on the code: for every body `b` the document `\n---\n` followed by
`b` has the empty header, whose split at newlines is one empty line; that line
has no `=`, so `parsePost` logs a parse failure at header line 0 and returns the
post with an empty `Content`, without rendering a page. -/
theorem parsePost_empty_header (e : Env) (tmpl fp body : GoString)
    (hread : e.readFile fp = some (str "\n---\n" ++ body)) :
    parsePost e tmpl fp =
      ({ Title := [], URL := TrimPrefix (TrimSuffix fp MdExt) e.Src, Desc := [], Date := [],
         Content := [] }, [.logExpectedEquals fp 0]) := by
  have hcut : cut (str "\n---\n") (str "\n---\n" ++ body) = some ([], body) := by
    rw [str_terminator]
    simp [cut, List.isPrefixOf]
  have hlines : Split (TrimSpace []) (str "\n") = [[]] := by decide
  have hheader : ∀ pt : Post, parseHeader fp pt 0 [[]] = (pt, [.logExpectedEquals fp 0], false) :=
    fun _ => rfl
  simp [parsePost, hread, SplitN, hcut, hlines, hheader]

theorem parsePost_empty_header_witness :
    (envOf [(str "src/blog/c.md", str "\n---\nbody")]).readFile (str "src/blog/c.md")
      = some (str "\n---\n" ++ str "body") ∧
    (envOf [(str "src/blog/c.md", str "\n---\nbody")]).markdown (str "body") = str "<p>body</p>\n" ∧
    parsePost (envOf [(str "src/blog/c.md", str "\n---\nbody")]) (str "blog-post")
        (str "src/blog/c.md") =
      ({ Title := [], URL := TrimPrefix (TrimSuffix (str "src/blog/c.md") MdExt) (str "src"),
         Desc := [], Date := [], Content := [] },
        [.logExpectedEquals (str "src/blog/c.md") 0]) :=
  ⟨by decide, by decide,
    parsePost_empty_header (envOf [(str "src/blog/c.md", str "\n---\nbody")]) (str "blog-post")
      (str "src/blog/c.md") (str "body") (by decide)⟩

/-! ## The simple variant: a header line without `=` (C8) -/

theorem str_equals : str "=" = [61] := rfl

theorem splitN_equals (line : GoString) :
    SplitN line (str "=") 2 =
      match cut [61] line with
      | none => [line]
      | some (k, x) => [k, x] := by
  rw [str_equals]
  simp only [SplitN]

theorem headerField_keeps (fp : GoString) (pt : Post) (ln : Nat) (k x : GoString) :
    (headerField fp pt ln k x).1.URL = pt.URL ∧
    (headerField fp pt ln k x).1.Content = pt.Content ∧
    ∀ ev ∈ (headerField fp pt ln k x).2, ev = .logUnknownKey fp ln := by
  unfold headerField
  simp only
  split_ifs <;> simp

/-- The header loop sets neither the URL nor the content and renders nothing; when
one of the lines has no `=` it logs that and returns `false`. -/
theorem parseHeader_spec (fp : GoString) : ∀ (ls : List GoString) (pt : Post) (ln : Nat),
    (parseHeader fp pt ln ls).1.URL = pt.URL ∧
    (parseHeader fp pt ln ls).1.Content = pt.Content ∧
    (∀ nfn t, Event.rendered nfn t ∉ (parseHeader fp pt ln ls).2.1) ∧
    ((∃ l ∈ ls, 61 ∉ l) →
      (parseHeader fp pt ln ls).2.2 = false ∧
      ∃ k, Event.logExpectedEquals fp k ∈ (parseHeader fp pt ln ls).2.1)
  | [], pt, ln => by simp [parseHeader]
  | line :: rest, pt, ln => by
    cases hc : cut [61] line with
    | none =>
      have hs : SplitN line (str "=") 2 = [line] := by rw [splitN_equals, hc]
      have hp : parseHeader fp pt ln (line :: rest) = (pt, [.logExpectedEquals fp ln], false) := by
        simp only [parseHeader, hs]
      rw [hp]
      exact ⟨rfl, rfl, by simp, fun _ => ⟨rfl, ln, by simp⟩⟩
    | some kx =>
      obtain ⟨k, x⟩ := kx
      have hs : SplitN line (str "=") 2 = [k, x] := by rw [splitN_equals, hc]
      obtain ⟨hurl, hcontent, hrendered, hbad⟩ :=
        parseHeader_spec fp rest (headerField fp pt ln k x).1 (ln + 1)
      obtain ⟨hfu, hfc, hfl⟩ := headerField_keeps fp pt ln k x
      have hp : parseHeader fp pt ln (line :: rest) =
          ((parseHeader fp (headerField fp pt ln k x).1 (ln + 1) rest).1,
           (headerField fp pt ln k x).2 ++
             (parseHeader fp (headerField fp pt ln k x).1 (ln + 1) rest).2.1,
           (parseHeader fp (headerField fp pt ln k x).1 (ln + 1) rest).2.2) := by
        simp only [parseHeader, hs]
      rw [hp]
      refine ⟨by rw [hurl, hfu], by rw [hcontent, hfc], ?_, ?_⟩
      · intro nfn t hmem
        rcases List.mem_append.mp hmem with h | h
        · have := hfl _ h
          simp at this
        · exact hrendered nfn t h
      · rintro ⟨l, hl, hno⟩
        have hrest : ∃ l ∈ rest, 61 ∉ l := by
          rcases List.mem_cons.mp hl with h | h
          · rw [h] at hno
            rw [cut_none_of_not_mem 61 line hno] at hc
            simp at hc
          · exact ⟨l, h, hno⟩
        obtain ⟨hfalse, kk, hk⟩ := hbad hrest
        exact ⟨hfalse, kk, List.mem_append_right _ hk⟩

/-- Evaluation for C8: in the directory `src/blog` the header of `b.md` is the
line `title`, without `=`; `parsePost` logs the failure and renders no page for
it, and the `Posts` list handed to the index template still holds its entry,
next to the entries of `a.md` and `d.md`. -/
theorem malformed_header_counterexample :
    parsePost (envOf simplePosts) (str "blog-post") (str "src/blog/b.md")
      = ({ URL := str "/blog/b" }, [.logExpectedEquals (str "src/blog/b.md") 0]) ∧
    (md2html (envOf simplePosts) (str "src/blog") (simplePosts.map Prod.fst)).1.Posts =
      [{ Title := str "A", URL := str "/blog/a", Date := str "2020-01-02",
         Content := str "<p>hello</p>\n" },
       { URL := str "/blog/b" },
       { URL := str "/blog/d" }] ∧
    ({ URL := str "/blog/b" } : Post) ∈
      (md2html (envOf simplePosts) (str "src/blog") (simplePosts.map Prod.fst)).1.Posts := by
  decide

/-- The `Posts` list handed to the index template is a rearrangement of the posts
`parsePost` returns, one for each document. -/
theorem md2html_posts_perm (e : Env) (dir : GoString) (fps : List GoString) :
    (md2html e dir fps).1.Posts.Perm
      (fps.map (fun fp => (parsePost e (Base dir ++ str "-post") fp).1)) ∧
    (md2html e dir fps).1.Posts.length = fps.length := by
  have hposts : (md2html e dir fps).1.Posts
      = sortSlice (fun a b => strLt b.Date a.Date)
          ((fps.map (parsePost e (Base dir ++ str "-post"))).map Prod.fst) := by
    unfold md2html
    simp only
    split_ifs <;> rfl
  have hperm := sortSlice_perm (fun a b : Post => strLt b.Date a.Date)
    ((fps.map (parsePost e (Base dir ++ str "-post"))).map Prod.fst)
  rw [List.map_map] at hperm hposts
  rw [hposts]
  exact ⟨hperm, by simpa using hperm.length_eq⟩

/-- C8 fails on the code: for every directory processed by `md2html` and every
readable document of it whose header, the bytes before the terminator, has a
line without `=`, `parsePost` logs the parse failure and renders no page for the
document, and the post it returns, with the URL and an empty `Content`, is still
an entry of the `Posts` list handed to the index template, as is the post of
every other document of the directory. -/
theorem malformed_document_listed (e : Env) (dir : GoString) (fps : List GoString)
    (fp b hd body : GoString) (hfp : fp ∈ fps) (hread : e.readFile fp = some b)
    (hcut : cut (str "\n---\n") b = some (hd, body))
    (hbad : ∃ l ∈ Split (TrimSpace hd) (str "\n"), 61 ∉ l) :
    (∃ ln, Event.logExpectedEquals fp ln ∈ (parsePost e (Base dir ++ str "-post") fp).2) ∧
    (∀ nfn t, Event.rendered nfn t ∉ (parsePost e (Base dir ++ str "-post") fp).2) ∧
    (parsePost e (Base dir ++ str "-post") fp).1.Content = [] ∧
    (parsePost e (Base dir ++ str "-post") fp).1.URL = TrimPrefix (TrimSuffix fp MdExt) e.Src ∧
    (parsePost e (Base dir ++ str "-post") fp).1 ∈ (md2html e dir fps).1.Posts ∧
    ∀ fp2 ∈ fps, (parsePost e (Base dir ++ str "-post") fp2).1 ∈ (md2html e dir fps).1.Posts := by
  obtain ⟨hurl, hcontent, hrendered, hfail⟩ :=
    parseHeader_spec fp (Split (TrimSpace hd) (str "\n"))
      { URL := TrimPrefix (TrimSuffix fp MdExt) e.Src } 0
  obtain ⟨hfalse, ln, hlog⟩ := hfail hbad
  have hpost : parsePost e (Base dir ++ str "-post") fp
      = ((parseHeader fp { URL := TrimPrefix (TrimSuffix fp MdExt) e.Src } 0
            (Split (TrimSpace hd) (str "\n"))).1,
         (parseHeader fp { URL := TrimPrefix (TrimSuffix fp MdExt) e.Src } 0
            (Split (TrimSpace hd) (str "\n"))).2.1) := by
    simp [parsePost, hread, SplitN, hcut, hfalse]
  have hall : ∀ fp2 ∈ fps,
      (parsePost e (Base dir ++ str "-post") fp2).1 ∈ (md2html e dir fps).1.Posts := by
    intro fp2 hfp2
    refine (md2html_posts_perm e dir fps).1.mem_iff.mpr ?_
    exact List.mem_map.mpr ⟨fp2, hfp2, rfl⟩
  refine ⟨⟨ln, ?_⟩, ?_, ?_, ?_, hall fp hfp, hall⟩
  · rw [hpost]
    exact hlog
  · rw [hpost]
    exact hrendered
  · rw [hpost]
    exact hcontent
  · rw [hpost]
    exact hurl

theorem malformed_document_listed_witness :
    str "src/blog/b.md" ∈ simplePosts.map Prod.fst ∧
    (envOf simplePosts).readFile (str "src/blog/b.md") = some (str "title\n---\nbody") ∧
    cut (str "\n---\n") (str "title\n---\nbody") = some (str "title", str "body") ∧
    (∃ l ∈ Split (TrimSpace (str "title")) (str "\n"), 61 ∉ l) ∧
    (parsePost (envOf simplePosts) (Base (str "src/blog") ++ str "-post")
      (str "src/blog/b.md")).1 = { URL := str "/blog/b" } ∧
    (parsePost (envOf simplePosts) (Base (str "src/blog") ++ str "-post") (str "src/blog/b.md")).1
      ∈ (md2html (envOf simplePosts) (str "src/blog") (simplePosts.map Prod.fst)).1.Posts :=
  ⟨by decide, by decide, by decide, by decide, by decide,
    (malformed_document_listed (envOf simplePosts) (str "src/blog")
      (simplePosts.map Prod.fst) (str "src/blog/b.md") (str "title\n---\nbody") (str "title")
      (str "body") (by decide) (by decide) (by decide) (by decide)).2.2.2.2.1⟩

end SiteGen
